import Mathlib

/-
Verification of the nihvm stack-based bytecode virtual machine and its
two-pass assembler (src/main.rs).

Modelling conventions:
  - Machine integers are modelled as `Nat`/`Int` with explicit reductions
    modulo `2 ^ 32` (i32) and `2 ^ 64` (u64/usize/i64 casts) exactly where
    the Rust code can wrap; in particular the `usize as isize`
    reinterpretation in the overflow pre-check (`toI64`), which goes
    negative for cursor values `>= 2 ^ 63`.  Integer overflow follows
    release-mode (wrapping) semantics; a Rust panic that exists in every
    mode (division or remainder by zero) is the explicit `Fault.panicked`.
  - The two fixed-capacity stacks are `List Int` whose length is the
    capacity; the byte buffer is a `List Nat` of values `< 256` (reads
    reduce the byte modulo 256, matching the `u8` type).
  - An `unsafe get_unchecked` access that would be out of bounds is the
    explicit `Fault.undefinedBehavior`; checked accesses (`get_mut`)
    return the same error the source maps them to.
  - The `println!` output channel is an explicit list of emitted values.
  - `str::split` / `char::is_whitespace` tokenisation is modelled on
    `List Char` (the programs at issue are ASCII).
-/

namespace NihVm

/-! ## Instruction table (define_instructions!, src/main.rs lines 42-69) -/

inductive Inst
  | Nop | Print | Halt | Push | Dup | Pop | Swap
  | Add | Sub | Mul | Div | Mod
  | Eq | Lt | Lte | Gt | Gte
  | Jz | Jnz | Jump | Call | Ret
  | CPush | CPop | CDup
  deriving DecidableEq

def Inst.code : Inst → Nat
  | .Nop => 0 | .Print => 1 | .Halt => 2 | .Push => 3 | .Dup => 4
  | .Pop => 5 | .Swap => 6 | .Add => 7 | .Sub => 8 | .Mul => 9
  | .Div => 10 | .Mod => 11 | .Eq => 12 | .Lt => 13 | .Lte => 14
  | .Gt => 15 | .Gte => 16 | .Jz => 17 | .Jnz => 18 | .Jump => 19
  | .Call => 20 | .Ret => 21 | .CPush => 22 | .CPop => 23 | .CDup => 24

def Inst.from_u8 : Nat → Option Inst
  | 0 => some .Nop | 1 => some .Print | 2 => some .Halt | 3 => some .Push
  | 4 => some .Dup | 5 => some .Pop | 6 => some .Swap | 7 => some .Add
  | 8 => some .Sub | 9 => some .Mul | 10 => some .Div | 11 => some .Mod
  | 12 => some .Eq | 13 => some .Lt | 14 => some .Lte | 15 => some .Gt
  | 16 => some .Gte | 17 => some .Jz | 18 => some .Jnz | 19 => some .Jump
  | 20 => some .Call | 21 => some .Ret | 22 => some .CPush
  | 23 => some .CPop | 24 => some .CDup
  | _ => none

def Inst.mnemonic : Inst → List Char
  | .Nop => "nop".data | .Print => "print".data | .Halt => "halt".data
  | .Push => "push".data | .Dup => "dup".data | .Pop => "pop".data
  | .Swap => "swap".data | .Add => "add".data | .Sub => "sub".data
  | .Mul => "mul".data | .Div => "div".data | .Mod => "mod".data
  | .Eq => "eq".data | .Lt => "lt".data | .Lte => "lte".data
  | .Gt => "gt".data | .Gte => "gte".data | .Jz => "jz".data
  | .Jnz => "jnz".data | .Jump => "jump".data | .Call => "call".data
  | .Ret => "ret".data | .CPush => "cpush".data | .CPop => "cpop".data
  | .CDup => "cdup".data

def Inst.all : List Inst :=
  [.Nop, .Print, .Halt, .Push, .Dup, .Pop, .Swap, .Add, .Sub, .Mul, .Div,
   .Mod, .Eq, .Lt, .Lte, .Gt, .Gte, .Jz, .Jnz, .Jump, .Call, .Ret,
   .CPush, .CPop, .CDup]

def Inst.from_str (s : List Char) : Option Inst :=
  Inst.all.find? (fun i => i.mnemonic = s)

def Inst.num_operands : Inst → Nat
  | .Push | .Jz | .Jnz | .Jump | .Call => 1
  | _ => 0

def Inst.num_stack_args : Inst → Nat
  | .Nop | .Halt | .Push | .Jump | .Call | .Ret | .CPop | .CDup => 0
  | .Print | .Dup | .Pop | .Jz | .Jnz | .CPush => 1
  | .Swap | .Add | .Sub | .Mul | .Div | .Mod
  | .Eq | .Lt | .Lte | .Gt | .Gte => 2

def Inst.stack_effect : Inst → Int
  | .Nop | .Halt | .Swap | .Jump | .Call | .Ret => 0
  | .Push | .Dup | .CPop | .CDup => 1
  | .Print | .Pop | .Add | .Sub | .Mul | .Div | .Mod
  | .Eq | .Lt | .Lte | .Gt | .Gte | .Jz | .Jnz | .CPush => -1

/-! ## Machine-integer helpers -/

/-- Wrap an integer to the i32 range, as Rust release-mode arithmetic does. -/
def wrap32 (n : Int) : Int := (n + 2 ^ 31) % (2 ^ 32) - 2 ^ 31

/-- The Rust `usize as i32` cast: truncate to 32 bits, reinterpret signed. -/
def toI32 (n : Nat) : Int := wrap32 n

/-- The Rust cast of a (possibly negative) integer to `u64`/`usize`. -/
def toU64 (i : Int) : Nat := (i % (2 ^ 64)).toNat

/-- The Rust `usize as isize` cast: reinterpret the 64-bit value as a
signed 64-bit integer (values `>= 2 ^ 63` become negative). -/
def toI64 (n : Nat) : Int :=
  if n % 2 ^ 64 < 2 ^ 63 then ((n % 2 ^ 64 : Nat) : Int)
  else ((n % 2 ^ 64 : Nat) : Int) - 2 ^ 64

/-- `n - 1` in `usize` arithmetic (wraps at zero in release mode). -/
def usub1 (n : Nat) : Nat := toU64 ((n : Int) - 1)

/-- `n - 2` in `usize` arithmetic (wraps below zero in release mode). -/
def usub2 (n : Nat) : Nat := toU64 ((n : Int) - 2)

/-- Bounds-checked list lookup (evaluates the bound by comparison first). -/
def getAt {α : Type} (l : List α) (i : Nat) : Option α :=
  if h : i < l.length then some (l.get ⟨i, h⟩) else none

/-! ## Errors and VM state -/

inductive VmError
  | InvalidOpcode
  | UnexpectedProgramEnd
  | StackOverflow
  | StackUnderflow
  | ControlStackOverflow
  | ControlStackUnderflow
  deriving DecidableEq

/-- How one dispatch step can fail: a returned `VmError`, a Rust panic
(division/remainder by zero), or undefined behavior from an out-of-bounds
`get_unchecked` access. -/
inductive Fault
  | err (e : VmError)
  | panicked
  | undefinedBehavior
  deriving DecidableEq

structure Vm where
  stack : List Int
  stack_idx : Nat
  control_stack : List Int
  control_stack_idx : Nat
  deriving DecidableEq

/-- The full state of one `execute` call: the `Vm`, the byte cursor of the
`Cursor<&[u8]>`, and the values printed so far. -/
structure ExecSt where
  vm : Vm
  pos : Nat
  out : List Int
  deriving DecidableEq

/-- Result of one iteration of the dispatch loop. -/
inductive StepResult
  | next (s : ExecSt)                -- the iteration completed normally
  | halted (s : ExecSt)              -- Halt executed `break`
  | done (s : ExecSt)                -- read_u8 failed: end of program
  | fault (f : Fault) (s : ExecSt)   -- early return / panic / UB
  deriving DecidableEq

/-- The state a `StepResult` carries. -/
def StepResult.state : StepResult → ExecSt
  | .next s => s
  | .halted s => s
  | .done s => s
  | .fault _ s => s

/-- The spec's two-cursor invariant: `0 <= stack_idx <= capacity` for the
operand stack and likewise for the control stack (the lower bounds are
inherent in `Nat`). -/
def StacksInBounds (s : ExecSt) : Prop :=
  s.vm.stack_idx ≤ s.vm.stack.length ∧
  s.vm.control_stack_idx ≤ s.vm.control_stack.length

/-! ## Cursor reads -/

/-- `Cursor::read_u8`: read one byte and advance; fails at end of buffer. -/
def read_u8 (program : List Nat) (pos : Nat) : Option (Nat × Nat) :=
  match getAt program pos with
  | some b => some (b % 256, pos + 1)
  | none => none

/-- Decode 4 bytes as a little-endian signed 32-bit integer. -/
def decodeLE (b0 b1 b2 b3 : Nat) : Int :=
  let n := b0 % 256 + 256 * (b1 % 256) + 65536 * (b2 % 256) +
    16777216 * (b3 % 256)
  if n < 2 ^ 31 then (n : Int) else (n : Int) - 2 ^ 32

/-- `read_i32::<LittleEndian>`: read 4 bytes and advance by 4. -/
def read_i32 (program : List Nat) (pos : Nat) : Option (Int × Nat) :=
  match getAt program pos, getAt program (pos + 1),
    getAt program (pos + 2), getAt program (pos + 3) with
  | some b0, some b1, some b2, some b3 =>
    some (decodeLE b0 b1 b2 b3, pos + 4)
  | _, _, _, _ => none

/-- Cursor position after a failed multi-byte read (`read_exact` consumes
whatever was available). -/
def readFailPos (program : List Nat) (pos : Nat) : Nat :=
  max pos program.length

/-- The nested `jump` helper (lines 92-100): read the displacement; if the
branch is taken, set the cursor to `position-after-read + delta - 4`.
Returns the new cursor position, or the error with the cursor position at
the failure. -/
def jumpHelper (program : List Nat) (pos : Nat) (condition : Bool) :
    Except (VmError × Nat) Nat :=
  match read_i32 program pos with
  | none => .error (.UnexpectedProgramEnd, readFailPos program pos)
  | some (delta, pos') =>
    if condition then .ok (toU64 ((pos' : Int) + delta - 4))
    else .ok pos'

/-! ## One dispatch step -/

/-- `get_unchecked` read: out of bounds is undefined behavior. -/
def uget (l : List Int) (i : Nat) : Except Fault Int :=
  match getAt l i with
  | some v => .ok v
  | none => .error .undefinedBehavior

/-- `get_unchecked_mut` write: out of bounds is undefined behavior. -/
def uset (l : List Int) (i : Nat) (v : Int) : Except Fault (List Int) :=
  if i < l.length then .ok (l.set i v) else .error .undefinedBehavior

/-- A binary opcode body: read slots `stack_idx - 1` and `stack_idx - 2`,
combine them in place into slot `stack_idx - 2`. -/
def binInPlace (stack : List Int) (idx : Nat)
    (f : Int → Int → Except Fault Int) : Except Fault (List Int) := do
  let b ← uget stack (usub1 idx)
  let a ← uget stack (usub2 idx)
  let r ← f a b
  uset stack (usub2 idx) r

def addOp (a b : Int) : Except Fault Int := .ok (wrap32 (a + b))
def subOp (a b : Int) : Except Fault Int := .ok (wrap32 (a - b))
def mulOp (a b : Int) : Except Fault Int := .ok (wrap32 (a * b))
def divOp (a b : Int) : Except Fault Int :=
  if b = 0 then .error .panicked else .ok (wrap32 (a.tdiv b))
def modOp (a b : Int) : Except Fault Int :=
  if b = 0 then .error .panicked else .ok (wrap32 (a.tmod b))
def eqOp (a b : Int) : Except Fault Int := .ok (if a = b then 1 else 0)
def ltOp (a b : Int) : Except Fault Int := .ok (if a < b then 1 else 0)
def lteOp (a b : Int) : Except Fault Int := .ok (if a ≤ b then 1 else 0)
def gtOp (a b : Int) : Except Fault Int := .ok (if b < a then 1 else 0)
def gteOp (a b : Int) : Except Fault Int := .ok (if b ≤ a then 1 else 0)

/-- The uniform stack-underflow pre-check (line 109). -/
def underflowCheck (inst : Inst) (vm : Vm) : Bool :=
  vm.stack_idx < inst.num_stack_args

/-- The uniform stack-overflow pre-check (lines 110-112):
`stack_idx as isize >= stack.len() as isize - stack_effect as isize`.
The `usize as isize` cast on `stack_idx` (an arbitrary caller-settable
field) is the reinterpretation `toI64`, so for `stack_idx >= 2 ^ 63` the
comparison sees a negative value.  The cast on `stack.len()` is exact:
a slice of `i32` holds at most `isize::MAX / 4` elements, so
`len as isize = len` and the `isize` subtraction `len - effect`
(`effect` an `i8`, sign-extended exactly) cannot overflow. -/
def overflowCheck (inst : Inst) (vm : Vm) : Bool :=
  toI64 vm.stack_idx ≥ (vm.stack.length : Int) - inst.stack_effect

/-- The uniform post-step (line 284):
`stack_idx = (stack_idx as isize + stack_effect as isize) as usize`. -/
def applyEffect (inst : Inst) (vm : Vm) : Vm :=
  { vm with stack_idx := toU64 ((vm.stack_idx : Int) + inst.stack_effect) }

/-- Finish a normally-completed iteration by applying the stack effect. -/
def finish (inst : Inst) (s : ExecSt) : StepResult :=
  .next { s with vm := applyEffect inst s.vm }

/-- The opcode body (the `match inst` of lines 114-282).  `s.pos` is the
cursor position just after the opcode byte. -/
def stepBody (program : List Nat) (inst : Inst) (s : ExecSt) : StepResult :=
  match inst with
  | .Nop => finish .Nop s
  | .Print =>
    match uget s.vm.stack (usub1 s.vm.stack_idx) with
    | .ok v => finish .Print { s with out := s.out ++ [v] }
    | .error f => .fault f s
  | .Halt => .halted s
  | .Push =>
    match read_i32 program s.pos with
    | none =>
      .fault (.err .UnexpectedProgramEnd)
        { s with pos := readFailPos program s.pos }
    | some (v, pos') =>
      match getAt s.vm.stack s.vm.stack_idx with
      | none => .fault (.err .StackOverflow) { s with pos := pos' }
      | some _ =>
        finish .Push
          { s with
            vm := { s.vm with stack := s.vm.stack.set s.vm.stack_idx v },
            pos := pos' }
  | .Dup =>
    match (do
        let v ← uget s.vm.stack (usub1 s.vm.stack_idx)
        uset s.vm.stack s.vm.stack_idx v) with
    | .ok stack' => finish .Dup { s with vm := { s.vm with stack := stack' } }
    | .error f => .fault f s
  | .Pop => finish .Pop s
  | .Swap =>
    match (do
        let tmp ← uget s.vm.stack (usub1 s.vm.stack_idx)
        let v2 ← uget s.vm.stack (usub2 s.vm.stack_idx)
        let st1 ← uset s.vm.stack (usub1 s.vm.stack_idx) v2
        uset st1 (usub2 s.vm.stack_idx) tmp) with
    | .ok stack' => finish .Swap { s with vm := { s.vm with stack := stack' } }
    | .error f => .fault f s
  | .Add =>
    match binInPlace s.vm.stack s.vm.stack_idx addOp with
    | .ok stack' => finish .Add { s with vm := { s.vm with stack := stack' } }
    | .error f => .fault f s
  | .Sub =>
    match binInPlace s.vm.stack s.vm.stack_idx subOp with
    | .ok stack' => finish .Sub { s with vm := { s.vm with stack := stack' } }
    | .error f => .fault f s
  | .Mul =>
    match binInPlace s.vm.stack s.vm.stack_idx mulOp with
    | .ok stack' => finish .Mul { s with vm := { s.vm with stack := stack' } }
    | .error f => .fault f s
  | .Div =>
    match binInPlace s.vm.stack s.vm.stack_idx divOp with
    | .ok stack' => finish .Div { s with vm := { s.vm with stack := stack' } }
    | .error f => .fault f s
  | .Mod =>
    match binInPlace s.vm.stack s.vm.stack_idx modOp with
    | .ok stack' => finish .Mod { s with vm := { s.vm with stack := stack' } }
    | .error f => .fault f s
  | .Eq =>
    match binInPlace s.vm.stack s.vm.stack_idx eqOp with
    | .ok stack' => finish .Eq { s with vm := { s.vm with stack := stack' } }
    | .error f => .fault f s
  | .Lt =>
    match binInPlace s.vm.stack s.vm.stack_idx ltOp with
    | .ok stack' => finish .Lt { s with vm := { s.vm with stack := stack' } }
    | .error f => .fault f s
  | .Lte =>
    match binInPlace s.vm.stack s.vm.stack_idx lteOp with
    | .ok stack' => finish .Lte { s with vm := { s.vm with stack := stack' } }
    | .error f => .fault f s
  | .Gt =>
    match binInPlace s.vm.stack s.vm.stack_idx gtOp with
    | .ok stack' => finish .Gt { s with vm := { s.vm with stack := stack' } }
    | .error f => .fault f s
  | .Gte =>
    match binInPlace s.vm.stack s.vm.stack_idx gteOp with
    | .ok stack' => finish .Gte { s with vm := { s.vm with stack := stack' } }
    | .error f => .fault f s
  | .Jz =>
    match uget s.vm.stack (usub1 s.vm.stack_idx) with
    | .error f => .fault f s
    | .ok c =>
      match jumpHelper program s.pos (decide (c = 0)) with
      | .error (e, fp) => .fault (.err e) { s with pos := fp }
      | .ok pos' => finish .Jz { s with pos := pos' }
  | .Jnz =>
    match uget s.vm.stack (usub1 s.vm.stack_idx) with
    | .error f => .fault f s
    | .ok c =>
      match jumpHelper program s.pos (decide (c ≠ 0)) with
      | .error (e, fp) => .fault (.err e) { s with pos := fp }
      | .ok pos' => finish .Jnz { s with pos := pos' }
  | .Jump =>
    match jumpHelper program s.pos true with
    | .error (e, fp) => .fault (.err e) { s with pos := fp }
    | .ok pos' => finish .Jump { s with pos := pos' }
  | .Call =>
    match getAt s.vm.control_stack s.vm.control_stack_idx with
    | none => .fault (.err .ControlStackOverflow) s
    | some _ =>
      let ra := wrap32 (toI32 s.pos + 4)
      let cs' := s.vm.control_stack.set s.vm.control_stack_idx ra
      match jumpHelper program s.pos true with
      | .error (e, fp) =>
        .fault (.err e) { s with vm := { s.vm with control_stack := cs' },
                                 pos := fp }
      | .ok pos' =>
        finish .Call
          { s with
            vm := { s.vm with control_stack := cs',
                              control_stack_idx := s.vm.control_stack_idx + 1 },
            pos := pos' }
  | .Ret =>
    match getAt s.vm.control_stack (usub1 s.vm.control_stack_idx) with
    | none => .fault (.err .ControlStackOverflow) s
    | some addr =>
      finish .Ret
        { s with
          vm := { s.vm with
                  control_stack_idx := s.vm.control_stack_idx - 1 },
          pos := toU64 addr }
  | .CPush =>
    if s.vm.control_stack_idx ≥ s.vm.control_stack.length then
      .fault (.err .ControlStackOverflow) s
    else
      match (do
          let v ← uget s.vm.stack (usub1 s.vm.stack_idx)
          uset s.vm.control_stack s.vm.control_stack_idx v) with
      | .ok cs' =>
        finish .CPush
          { s with
            vm := { s.vm with control_stack := cs',
                              control_stack_idx :=
                                s.vm.control_stack_idx + 1 } }
      | .error f => .fault f s
  | .CPop =>
    if s.vm.control_stack_idx < 1 then
      .fault (.err .ControlStackUnderflow) s
    else
      match (do
          let v ← uget s.vm.control_stack (usub1 s.vm.control_stack_idx)
          uset s.vm.stack s.vm.stack_idx v) with
      | .ok stack' =>
        finish .CPop
          { s with
            vm := { s.vm with stack := stack',
                              control_stack_idx :=
                                s.vm.control_stack_idx - 1 } }
      | .error f => .fault f s
  | .CDup =>
    if s.vm.control_stack_idx < 1 then
      .fault (.err .ControlStackUnderflow) s
    else
      match (do
          let v ← uget s.vm.control_stack (usub1 s.vm.control_stack_idx)
          uset s.vm.stack s.vm.stack_idx v) with
      | .ok stack' =>
        finish .CDup { s with vm := { s.vm with stack := stack' } }
      | .error f => .fault f s

/-- One iteration of the dispatch loop (lines 106-285): read the opcode
byte, decode it, run the uniform pre-checks, and run the opcode body. -/
def step (program : List Nat) (s : ExecSt) : StepResult :=
  match read_u8 program s.pos with
  | none => .done s
  | some (opcode, pos1) =>
    match Inst.from_u8 opcode with
    | none => .fault (.err .InvalidOpcode) { s with pos := pos1 }
    | some inst =>
      if underflowCheck inst s.vm then
        .fault (.err .StackUnderflow) { s with pos := pos1 }
      else if overflowCheck inst s.vm then
        .fault (.err .StackOverflow) { s with pos := pos1 }
      else
        stepBody program inst { s with pos := pos1 }

/-- Result of a whole `execute` call (fuel-indexed dispatch loop). -/
inductive RunResult
  | ok (s : ExecSt)
  | fault (f : Fault) (s : ExecSt)
  | outOfFuel (s : ExecSt)
  deriving DecidableEq

/-- The final state a `RunResult` carries. -/
def RunResult.state : RunResult → ExecSt
  | .ok s => s
  | .fault _ s => s
  | .outOfFuel s => s

/-- The dispatch loop of `Vm::execute`, indexed by fuel: it stops with `ok`
at end-of-buffer or at `halt`, and with `fault` at the first error. -/
def execute (program : List Nat) : Nat → ExecSt → RunResult
  | 0, s => .outOfFuel s
  | fuel + 1, s =>
    match step program s with
    | .next s' => execute program fuel s'
    | .halted s' => .ok s'
    | .done s' => .ok s'
    | .fault f s' => .fault f s'

/-! ## Assembler (fn assemble, src/main.rs lines 291-355) -/

/-- Rust `str::split` on a character predicate: it yields the (possibly
empty) pieces between separator characters. -/
def splitOn (p : Char → Bool) : List Char → List (List Char)
  | [] => [[]]
  | c :: cs =>
    if p c then [] :: splitOn p cs
    else
      match splitOn p cs with
      | [] => [[c]]
      | piece :: rest => (c :: piece) :: rest

/-- Rust `char::is_whitespace`: the Unicode White_Space property. -/
def rust_is_whitespace (c : Char) : Bool :=
  c = '\u0009' || c = '\u000A' || c = '\u000B' || c = '\u000C' ||
  c = '\u000D' || c = '\u0020' || c = '\u0085' || c = '\u00A0' ||
  c = '\u1680' || ('\u2000' ≤ c && c ≤ '\u200A') || c = '\u2028' ||
  c = '\u2029' || c = '\u202F' || c = '\u205F' || c = '\u3000'

/-- `line.split(char::is_whitespace).filter(|s| !s.is_empty())`. -/
def tokenize (line : List Char) : List (List Char) :=
  (splitOn rust_is_whitespace line).filter (fun t => t ≠ [])

def digitVal (c : Char) : Option Nat :=
  if '0' ≤ c ∧ c ≤ '9' then some (c.toNat - '0'.toNat) else none

def parseDigitsAux : List Char → Nat → Option Nat
  | [], acc => some acc
  | c :: cs, acc =>
    match digitVal c with
    | some d => parseDigitsAux cs (acc * 10 + d)
    | none => none

/-- Rust `str::parse::<i32>()`: an optional sign followed by at least one
decimal digit, rejected when the value is outside the i32 range. -/
def parse_i32 (s : List Char) : Option Int :=
  match s with
  | [] => none
  | '-' :: cs =>
    match cs, parseDigitsAux cs 0 with
    | _ :: _, some n => if n ≤ 2 ^ 31 then some (-(n : Int)) else none
    | _, _ => none
  | '+' :: cs =>
    match cs, parseDigitsAux cs 0 with
    | _ :: _, some n => if n < 2 ^ 31 then some ((n : Int)) else none
    | _, _ => none
  | _ =>
    match parseDigitsAux s 0 with
    | some n => if n < 2 ^ 31 then some ((n : Int)) else none
    | none => none

/-- Encode an i32 as 4 little-endian bytes. -/
def encodeI32 (n : Int) : List Nat :=
  let m := (n % (2 ^ 32)).toNat
  [m % 256, m / 256 % 256, m / 65536 % 256, m / 16777216 % 256]

/-- The fatal assembly errors (the source raises them with `panic!`),
carrying the offending token as the source's messages do. -/
inductive AsmError
  | redefinedLabel (name : List Char)
  | unrecognizedInstruction (opcode : List Char)
  | missingOperand (opcode : List Char)
  | invalidOperand (opcode operand : List Char)
  | undefinedLabel (name : List Char)
  | patchOutOfBounds (idx : Nat)
  deriving DecidableEq

/-- First-pass assembler state: the byte buffer built so far, the label
definition table, and the pending label-use list. -/
structure AsmSt where
  program : List Nat
  label_definitions : List (List Char × Nat)
  label_uses : List (List Char × Nat)
  deriving DecidableEq

def lookupDef (defs : List (List Char × Nat)) (name : List Char) :
    Option Nat :=
  match defs with
  | [] => none
  | (n, v) :: rest => if n = name then some v else lookupDef rest name

/-- Parse the declared operands of an instruction (lines 322-341):
a `@label` reference reserves four zero bytes and records a pending use at
the current buffer length; anything else must be a valid i32 literal,
encoded little-endian in place. -/
def parseOperands (opcode : List Char) :
    Nat → List (List Char) → AsmSt → Except AsmError AsmSt
  | 0, _, st => .ok st
  | k + 1, toks, st =>
    match toks with
    | [] => .error (.missingOperand opcode)
    | operand :: rest =>
      if operand.head? = some '@' then
        let labelName := operand.tail
        parseOperands opcode k rest
          { st with
            label_uses := st.label_uses ++ [(labelName, st.program.length)],
            program := st.program ++ [0, 0, 0, 0] }
      else
        match parse_i32 operand with
        | some n =>
          parseOperands opcode k rest
            { st with program := st.program ++ encodeI32 n }
        | none => .error (.invalidOperand opcode operand)

/-- Parse a mnemonic and its operands (lines 314-341). -/
def processInst (st : AsmSt) (opcode : List Char) (toks : List (List Char)) :
    Except AsmError AsmSt :=
  match Inst.from_str opcode with
  | none => .error (.unrecognizedInstruction opcode)
  | some inst =>
    parseOperands opcode inst.num_operands toks
      { st with program := st.program ++ [inst.code] }

/-- Process one statement (lines 298-342): an optional `label:` definition
recorded at the current buffer length, then an optional instruction. -/
def processStatement (st : AsmSt) (line : List Char) :
    Except AsmError AsmSt :=
  match tokenize line with
  | [] => .ok st
  | first :: rest =>
    if first.getLast? = some ':' then
      let labelName := first.dropLast
      match lookupDef st.label_definitions labelName with
      | some _ => .error (.redefinedLabel labelName)
      | none =>
        let st' :=
          { st with
            label_definitions :=
              (labelName, st.program.length) :: st.label_definitions }
        match rest with
        | [] => .ok st'
        | op :: rest2 => processInst st' op rest2
    else
      processInst st first rest

/-- The first pass: split the source into statements on newlines and
semicolons and process each in order. -/
def assemblePass1 (source : List Char) : Except AsmError AsmSt :=
  (splitOn (fun c => decide (c = '\n' ∨ c = ';')) source).foldlM
    processStatement { program := [], label_definitions := [], label_uses := [] }

/-- Overwrite bytes of the buffer starting at index `i`. -/
def writeBytesAt : List Nat → Nat → List Nat → List Nat
  | prog, _, [] => prog
  | prog, i, b :: bs => writeBytesAt (prog.set i b) (i + 1) bs

/-- The second pass (lines 346-352): for every pending use, look up the
label and overwrite the four reserved bytes with the relative displacement
`target_index as i32 - use_index as i32`, little-endian. -/
def resolveUses (defs : List (List Char × Nat)) :
    List (List Char × Nat) → List Nat → Except AsmError (List Nat)
  | [], prog => .ok prog
  | (name, use_index) :: rest, prog =>
    match lookupDef defs name with
    | none => .error (.undefinedLabel name)
    | some target_index =>
      let delta := wrap32 (toI32 target_index - toI32 use_index)
      if use_index + 4 ≤ prog.length then
        resolveUses defs rest (writeBytesAt prog use_index (encodeI32 delta))
      else .error (.patchOutOfBounds use_index)

/-- The whole assembler: first pass, then label resolution. -/
def assemble (source : List Char) : Except AsmError (List Nat) :=
  match assemblePass1 source with
  | .error e => .error e
  | .ok st => resolveUses st.label_definitions st.label_uses st.program

/-- First-pass structural invariant: use sites appear in increasing order
with their 4 reserved bytes disjoint. -/
def UsesChain (uses : List (List Char × Nat)) : Prop :=
  List.Pairwise (fun a b => a.2 + 4 ≤ b.2) uses

/-- First-pass structural invariant: every use site's 4 reserved bytes
lie inside the buffer. -/
def UsesBound (uses : List (List Char × Nat)) (len : Nat) : Prop :=
  ∀ q ∈ uses, q.2 + 4 ≤ len

/-! ## Helper lemmas -/

theorem getAt_eq_some_iff {α : Type} {l : List α} {i : Nat} {v : α} :
    getAt l i = some v ↔ ∃ h : i < l.length, l.get ⟨i, h⟩ = v := by
  unfold getAt
  split
  · simp_all
  · simp_all

theorem getAt_of_lt {α : Type} (l : List α) {i : Nat} (h : i < l.length) :
    getAt l i = some (l.get ⟨i, h⟩) := by
  unfold getAt
  simp [h]

theorem getAt_none {α : Type} (l : List α) {i : Nat} (h : l.length ≤ i) :
    getAt l i = none := by
  unfold getAt
  simp [Nat.not_lt.mpr h]

theorem getAt_isSome_of_lt {α : Type} (l : List α) {i : Nat}
    (h : i < l.length) : ∃ v, getAt l i = some v :=
  ⟨l.get ⟨i, h⟩, getAt_of_lt l h⟩

theorem uget_ok_of_lt {l : List Int} {i : Nat} (h : i < l.length) :
    uget l i = .ok (l.get ⟨i, h⟩) := by
  unfold uget
  rw [getAt_of_lt l h]

theorem uset_ok_of_lt {l : List Int} {i : Nat} (v : Int)
    (h : i < l.length) : uset l i v = .ok (l.set i v) := by
  unfold uset
  simp [h]

theorem usub1_le {n : Nat} (h : 1 ≤ n) : usub1 n ≤ n - 1 := by
  unfold usub1 toU64
  omega

theorem usub2_le {n : Nat} (h : 2 ≤ n) : usub2 n ≤ n - 2 := by
  unfold usub2 toU64
  omega

theorem usub1_eq {n : Nat} (h1 : 1 ≤ n) (h2 : n ≤ 2 ^ 64) :
    usub1 n = n - 1 := by
  unfold usub1 toU64
  omega

theorem toU64_lt {x : Int} {n : Nat} (h0 : 0 ≤ x) (h : x < (n : Int)) :
    toU64 x < n := by
  unfold toU64
  omega

theorem toU64_le {x : Int} {n : Nat} (h0 : 0 ≤ x) (h : x ≤ (n : Int)) :
    toU64 x ≤ n := by
  unfold toU64
  omega

/-- The `usize as isize` reinterpretation never exceeds the value. -/
theorem toI64_le (n : Nat) : toI64 n ≤ (n : Int) := by
  unfold toI64
  split <;> omega

/-- Below `2 ^ 63` (in particular at any realizable stack depth) the
`usize as isize` cast is exact. -/
theorem toI64_eq_of_lt {n : Nat} (h : n < 2 ^ 63) : toI64 n = (n : Int) := by
  unfold toI64
  split <;> omega

/-- Table invariant: every opcode pops at most as many values as its
stack-argument count, i.e. `num_stack_args + stack_effect ≥ 0`. -/
theorem args_effect_nonneg (inst : Inst) :
    0 ≤ (inst.num_stack_args : Int) + inst.stack_effect := by
  cases inst <;> decide

theorem underflow_false {inst : Inst} {vm : Vm}
    (h : underflowCheck inst vm = false) :
    inst.num_stack_args ≤ vm.stack_idx := by
  unfold underflowCheck at h
  simpa using h

theorem overflow_false {inst : Inst} {vm : Vm}
    (h : overflowCheck inst vm = false) :
    toI64 vm.stack_idx < (vm.stack.length : Int) - inst.stack_effect := by
  unfold overflowCheck at h
  simp at h
  omega

/-- The overflow pre-check passes whenever the exact (wrap-free)
comparison would, for stack cursors within the isize range. -/
theorem overflowCheck_false_of {inst : Inst} {vm : Vm}
    (h1 : vm.stack_idx < 2 ^ 63)
    (h2 : (vm.stack_idx : Int) < (vm.stack.length : Int) -
      inst.stack_effect) :
    overflowCheck inst vm = false := by
  unfold overflowCheck
  rw [toI64_eq_of_lt h1]
  simp
  omega

/-- The post-step cursor `(stack_idx + stack_effect) as usize` is bounded
by any bound on `stack_idx + stack_effect` itself, given that the
underflow check passed (so the sum is non-negative). -/
theorem applyEffect_le {inst : Inst} {vm : Vm} {n : Nat}
    (hu : underflowCheck inst vm = false)
    (hle : (vm.stack_idx : Int) + inst.stack_effect ≤ (n : Int)) :
    toU64 ((vm.stack_idx : Int) + inst.stack_effect) ≤ n := by
  have h1 := args_effect_nonneg inst
  have h2 := underflow_false hu
  refine toU64_le ?_ hle
  have h3 : (inst.num_stack_args : Int) ≤ (vm.stack_idx : Int) := by
    exact_mod_cast h2
  omega

/-- C3: the code is wrong here.  Executing `ret` with an empty control
stack makes line 249 index the control stack at `0 - 1` (which wraps in
release mode), the checked access fails, and the error that propagates is
`ControlStackOverflow` — not the `ControlStackUnderflow` the design names
for this condition (and which `cpop`/`cdup` correctly raise). -/
theorem C3_ret_empty_eval :
    step [21] ⟨⟨[0], 0, [0], 0⟩, 0, []⟩ =
      .fault (.err .ControlStackOverflow) ⟨⟨[0], 0, [0], 0⟩, 1, []⟩ ∧
    VmError.ControlStackOverflow ≠ VmError.ControlStackUnderflow := by
  refine ⟨by decide, by decide⟩

/-! ## Claim C4 -/

/-- C4, counterexample: with a completely full stack
(`stack_idx = capacity = 1`) the uniform overflow pre-check fires even for
`halt` (whose stack effect is 0), so execution fails with `StackOverflow`
instead of terminating successfully. -/
theorem C4_counterexample :
    (1 : Nat) ≤ 1 ∧
    execute [2] 1 ⟨⟨[5], 1, [], 0⟩, 0, []⟩ =
      .fault (.err .StackOverflow) ⟨⟨[5], 1, [], 0⟩, 1, []⟩ := by decide

/-- C4 (amended): reaching a `halt` instruction from any state with
`stack_idx` strictly below the operand-stack capacity terminates the
dispatch loop successfully with no error and leaves `stack_idx` (the
value reported to the caller) unchanged. -/
theorem C4_halt (program : List Nat) (s : ExecSt) (pos1 : Nat)
    (hr : read_u8 program s.pos = some (2, pos1))
    (hidx : s.vm.stack_idx < s.vm.stack.length) :
    step program s = .halted { s with pos := pos1 } ∧
    ∀ fuel, execute program (fuel + 1) s = .ok { s with pos := pos1 } := by
  have hu : underflowCheck .Halt s.vm = false := by
    simp [underflowCheck, Inst.num_stack_args]
  have ho : overflowCheck .Halt s.vm = false := by
    have h1 := toI64_le s.vm.stack_idx
    simp [overflowCheck, Inst.stack_effect]
    omega
  have h1 : step program s = .halted { s with pos := pos1 } := by
    simp [step, hr, Inst.from_u8, hu, ho, stepBody]
  exact ⟨h1, fun fuel => by simp [execute, h1]⟩

/-- C4 witness: `halt` with an empty stack of capacity 1 ends the loop
successfully with `stack_idx` still 0. -/
theorem C4_witness :
    step [2] ⟨⟨[0], 0, [], 0⟩, 0, []⟩ = .halted ⟨⟨[0], 0, [], 0⟩, 1, []⟩ ∧
    execute [2] 1 ⟨⟨[0], 0, [], 0⟩, 0, []⟩ = .ok ⟨⟨[0], 0, [], 0⟩, 1, []⟩ := by
  have T := C4_halt [2] ⟨⟨[0], 0, [], 0⟩, 0, []⟩ 1 rfl (by decide)
  exact ⟨T.1, T.2 0⟩

/-! ## Claim C9 -/

/-- C9: every binary opcode (add, sub, mul, div, mod, eq, lt, lte, gt,
gte, swap) executed with `stack_idx < 2` fails the uniform pre-check with
`StackUnderflow`, and the failing step leaves the operand stack, both
cursors and the output untouched (only the opcode byte was consumed). -/
theorem C9_binary_underflow (program : List Nat) (s : ExecSt) (b pos1 : Nat)
    (inst : Inst)
    (hr : read_u8 program s.pos = some (b, pos1))
    (hd : Inst.from_u8 b = some inst)
    (hbin : inst ∈ ([.Add, .Sub, .Mul, .Div, .Mod, .Eq, .Lt, .Lte, .Gt,
      .Gte, .Swap] : List Inst))
    (hlt : s.vm.stack_idx < 2) :
    step program s = .fault (.err .StackUnderflow) { s with pos := pos1 } := by
  have hu : underflowCheck inst s.vm = true := by
    fin_cases hbin <;> (simp [underflowCheck, Inst.num_stack_args]; omega)
  simp [step, hr, hd, hu]

/-- C9 witness: `add` with a single live value fails `StackUnderflow`
without mutating the stack. -/
theorem C9_witness :
    step [7] ⟨⟨[1], 1, [], 0⟩, 0, []⟩ =
      .fault (.err .StackUnderflow) ⟨⟨[1], 1, [], 0⟩, 1, []⟩ :=
  C9_binary_underflow [7] ⟨⟨[1], 1, [], 0⟩, 0, []⟩ 7 1 .Add rfl rfl
    (by decide) (by decide)

/-! ## Claims C2 and C8 -/

theorem read_u8_pos {program : List Nat} {pos b pos1 : Nat}
    (h : read_u8 program pos = some (b, pos1)) : pos1 = pos + 1 := by
  unfold read_u8 at h
  cases hg : getAt program pos <;> rw [hg] at h <;> simp_all

/-- The nested `jump` helper can only fail with `UnexpectedProgramEnd`. -/
theorem jumpHelper_error {program : List Nat} {pos : Nat} {cond : Bool}
    {e : VmError} {fp : Nat}
    (h : jumpHelper program pos cond = .error (e, fp)) :
    e = .UnexpectedProgramEnd := by
  unfold jumpHelper at h
  repeat' split at h
  all_goals simp_all

/-- An unchecked read can only fail as undefined behavior. -/
theorem uget_error {l : List Int} {i : Nat} {f : Fault}
    (h : uget l i = .error f) : f = .undefinedBehavior := by
  unfold uget at h
  cases hg : getAt l i <;> rw [hg] at h <;> simp_all

/-- C2, counterexample: a `jump` with displacement 0 whose operand starts
at offset 1 lands the cursor at offset 1 (the operand's first byte), not
at offset 5 = (position immediately after the 4-byte operand) + 0 as the
claim states: line 96 subtracts the operand size again. -/
theorem C2_counterexample :
    step [19, 0, 0, 0, 0] ⟨⟨[0], 0, [], 0⟩, 0, []⟩ =
      .next ⟨⟨[0], 0, [], 0⟩, 1, []⟩ ∧
    (1 : Nat) ≠ 5 := by decide

/-- C2 (amended): whenever a `jump`, or a `jz`/`jnz` whose tested
top-of-stack value makes the branch taken, reads a 4-byte displacement
`delta` whose first byte sits at offset `pos1`, the executor sets the byte
cursor to `pos1 + delta` — that is, `(position immediately after the
operand) + delta - 4`, the displacement being relative to the operand's
own offset, not to the position after it. -/
theorem C2_jump_target (program : List Nat) (s : ExecSt) (b pos1 : Nat)
    (inst : Inst) (delta : Int)
    (hr : read_u8 program s.pos = some (b, pos1))
    (hd : Inst.from_u8 b = some inst)
    (hread : read_i32 program pos1 = some (delta, pos1 + 4))
    (hu : underflowCheck inst s.vm = false)
    (ho : overflowCheck inst s.vm = false)
    (htaken : inst = .Jump ∨
      ∃ c, uget s.vm.stack (usub1 s.vm.stack_idx) = .ok c ∧
        ((inst = .Jz ∧ c = 0) ∨ (inst = .Jnz ∧ c ≠ 0))) :
    ∃ s', step program s = .next s' ∧
      s'.pos = toU64 ((pos1 : Int) + delta) := by
  have hdest : toU64 (((pos1 + 4 : Nat) : Int) + delta - 4) =
      toU64 ((pos1 : Int) + delta) := by
    congr 1
    push_cast
    ring
  simp only [step, hr, hd, hu, ho, Bool.false_eq_true, if_false]
  rcases htaken with hJ | ⟨c, hc, hcase⟩
  · subst hJ
    simp only [stepBody, jumpHelper, hread, if_true]
    exact ⟨_, rfl, hdest⟩
  · rcases hcase with ⟨hJ, hc0⟩ | ⟨hJ, hc0⟩ <;> subst hJ
    · simp only [stepBody, hc, jumpHelper, hread, hc0, decide_True, if_true]
      exact ⟨_, rfl, hdest⟩
    · simp only [stepBody, hc, jumpHelper, hread]
      rw [if_pos (by simpa using hc0)]
      exact ⟨_, rfl, hdest⟩

/-- C2 witness: the counterexample program under the amended claim — the
assembled `jump 0` at offset 0 lands the cursor at `1 + 0`. -/
theorem C2_witness :
    ∃ s', step [19, 0, 0, 0, 0] ⟨⟨[0], 0, [], 0⟩, 0, []⟩ = .next s' ∧
      s'.pos = toU64 (((1 : Nat) : Int) + (0 : Int)) :=
  C2_jump_target [19, 0, 0, 0, 0] ⟨⟨[0], 0, [], 0⟩, 0, []⟩ 19 1 .Jump 0
    rfl rfl rfl (by decide) (by decide) (Or.inl rfl)

/-- C8, counterexample: a `jz` executed with an empty operand stack fails
`StackUnderflow` with the cursor at offset 1 — just past the opcode byte —
so the 4-byte displacement operand has not been consumed, contrary to the
claim (the uniform pre-check runs before the opcode body reads the
operand). -/
theorem C8_counterexample :
    step [17, 0, 0, 0, 0] ⟨⟨[0, 0], 0, [], 0⟩, 0, []⟩ =
      .fault (.err .StackUnderflow) ⟨⟨[0, 0], 0, [], 0⟩, 1, []⟩ ∧
    (1 : Nat) ≠ 5 := by decide

/-- C8 (amended): whenever a `jz`/`jnz` step fails with `StackUnderflow`
or `StackOverflow`, the error comes from the uniform pre-check, which runs
before the opcode-specific logic: the byte cursor has consumed only the
opcode byte (it sits at `s.pos + 1`), the 4-byte displacement operand has
not been consumed, and no state besides the cursor changed. -/
theorem C8_precheck_cursor (program : List Nat) (s s' : ExecSt)
    (b pos1 : Nat) (inst : Inst) (e : VmError)
    (hr : read_u8 program s.pos = some (b, pos1))
    (hd : Inst.from_u8 b = some inst)
    (hjz : inst = .Jz ∨ inst = .Jnz)
    (he : e = .StackUnderflow ∨ e = .StackOverflow)
    (hstep : step program s = .fault (.err e) s') :
    s' = { s with pos := pos1 } ∧ pos1 = s.pos + 1 := by
  refine ⟨?_, read_u8_pos hr⟩
  simp only [step, hr, hd] at hstep
  by_cases hu : underflowCheck inst s.vm = true
  · simp only [hu, if_true] at hstep
    cases hstep
    rfl
  · rw [if_neg (by simp_all)] at hstep
    by_cases ho : overflowCheck inst s.vm = true
    · simp only [ho, if_true] at hstep
      cases hstep
      rfl
    · rw [if_neg (by simp_all)] at hstep
      rcases hjz with hJ | hJ <;> subst hJ <;> simp only [stepBody] at hstep
      · cases hg : uget s.vm.stack (usub1 s.vm.stack_idx) <;>
          rw [hg] at hstep <;> dsimp only at hstep
        · have hf := uget_error hg
          simp_all
        · rename_i c
          cases hj : jumpHelper program pos1 (decide (c = 0)) <;>
            rw [hj] at hstep <;> dsimp only at hstep
          · rename_i p
            obtain ⟨e2, fp⟩ := p
            have h2 := jumpHelper_error hj
            rcases he with h3 | h3 <;> simp_all
          · simp [finish] at hstep
      · cases hg : uget s.vm.stack (usub1 s.vm.stack_idx) <;>
          rw [hg] at hstep <;> dsimp only at hstep
        · have hf := uget_error hg
          simp_all
        · rename_i c
          cases hj : jumpHelper program pos1 (decide (c ≠ 0)) <;>
            rw [hj] at hstep <;> dsimp only at hstep
          · rename_i p
            obtain ⟨e2, fp⟩ := p
            have h2 := jumpHelper_error hj
            rcases he with h3 | h3 <;> simp_all
          · simp [finish] at hstep

/-- C8 witness: the `jz`-with-empty-stack instance of the amended claim. -/
theorem C8_witness :
    (⟨⟨[0, 0], 0, [], 0⟩, 1, []⟩ : ExecSt) =
      { (⟨⟨[0, 0], 0, [], 0⟩, 0, []⟩ : ExecSt) with pos := 1 } ∧
    (1 : Nat) = 0 + 1 :=
  C8_precheck_cursor [17, 0, 0, 0, 0] ⟨⟨[0, 0], 0, [], 0⟩, 0, []⟩
    ⟨⟨[0, 0], 0, [], 0⟩, 1, []⟩ 17 1 .Jz .StackUnderflow rfl rfl
    (Or.inl rfl) (Or.inl rfl) (by decide)

/-! ## Claim C10 -/

theorem addOp_not_ub (a b : Int) : addOp a b ≠ .error .undefinedBehavior := by
  simp [addOp]

theorem subOp_not_ub (a b : Int) : subOp a b ≠ .error .undefinedBehavior := by
  simp [subOp]

theorem mulOp_not_ub (a b : Int) : mulOp a b ≠ .error .undefinedBehavior := by
  simp [mulOp]

theorem divOp_not_ub (a b : Int) : divOp a b ≠ .error .undefinedBehavior := by
  unfold divOp
  split <;> simp

theorem modOp_not_ub (a b : Int) : modOp a b ≠ .error .undefinedBehavior := by
  unfold modOp
  split <;> simp

theorem eqOp_not_ub (a b : Int) : eqOp a b ≠ .error .undefinedBehavior := by
  simp [eqOp]

theorem ltOp_not_ub (a b : Int) : ltOp a b ≠ .error .undefinedBehavior := by
  simp [ltOp]

theorem lteOp_not_ub (a b : Int) : lteOp a b ≠ .error .undefinedBehavior := by
  simp [lteOp]

theorem gtOp_not_ub (a b : Int) : gtOp a b ≠ .error .undefinedBehavior := by
  simp [gtOp]

theorem gteOp_not_ub (a b : Int) : gteOp a b ≠ .error .undefinedBehavior := by
  simp [gteOp]

/-- A binary-opcode body whose two source slots are in bounds can only
fail through its combining function (for `div`/`mod`: a panic, never an
out-of-bounds access). -/
theorem binInPlace_error_not_ub {stack : List Int} {idx : Nat}
    {op : Int → Int → Except Fault Int} {g : Fault}
    (h : binInPlace stack idx op = .error g)
    (h1 : usub1 idx < stack.length) (h2 : usub2 idx < stack.length)
    (hop : ∀ a b, op a b ≠ .error Fault.undefinedBehavior) :
    g ≠ .undefinedBehavior := by
  unfold binInPlace at h
  rw [uget_ok_of_lt h1] at h
  dsimp only [bind, Except.bind] at h
  rw [uget_ok_of_lt h2] at h
  dsimp only [bind, Except.bind] at h
  cases hop2 : op (stack.get ⟨usub2 idx, h2⟩) (stack.get ⟨usub1 idx, h1⟩) <;>
    rw [hop2] at h <;> dsimp only [bind, Except.bind] at h
  · cases h
    exact fun hf => hop _ _ (hf ▸ hop2)
  · rw [uset_ok_of_lt _ h2] at h
    cases h

/-- Under the uniform pre-checks (and, for the control-stack opcodes, the
control-stack cursor invariant), no opcode body can fail with an
out-of-bounds unchecked access. -/
theorem stepBody_fault_not_ub {program : List Nat} {inst : Inst}
    {s0 s' : ExecSt} {f : Fault}
    (hu : underflowCheck inst s0.vm = false)
    (ho : overflowCheck inst s0.vm = false)
    (hidx : s0.vm.stack_idx < 2 ^ 63)
    (hctl : s0.vm.control_stack_idx ≤ s0.vm.control_stack.length)
    (h : stepBody program inst s0 = .fault f s') :
    f ≠ .undefinedBehavior := by
  have hA := underflow_false hu
  have hO := overflow_false ho
  rw [toI64_eq_of_lt hidx] at hO
  cases inst <;> simp only [Inst.num_stack_args] at hA <;>
    simp only [Inst.stack_effect] at hO <;> simp only [stepBody] at h
  -- Nop
  · simp [finish] at h
  -- Print
  · have hb1 : usub1 s0.vm.stack_idx < s0.vm.stack.length := by
      have := usub1_le (show 1 ≤ s0.vm.stack_idx by omega)
      omega
    rw [uget_ok_of_lt hb1] at h
    simp [finish] at h
  -- Halt
  · simp at h
  -- Push
  · cases hri : read_i32 program s0.pos <;> rw [hri] at h <;> dsimp only at h
    · cases h
      simp
    · rename_i p
      obtain ⟨v, pos2⟩ := p
      dsimp only at h
      cases hga : getAt s0.vm.stack s0.vm.stack_idx <;> rw [hga] at h <;>
        dsimp only at h
      · cases h
        simp
      · simp [finish] at h
  -- Dup
  · have hb1 : usub1 s0.vm.stack_idx < s0.vm.stack.length := by
      have := usub1_le (show 1 ≤ s0.vm.stack_idx by omega)
      omega
    have hb0 : s0.vm.stack_idx < s0.vm.stack.length := by omega
    cases hsc : (do
        let v ← uget s0.vm.stack (usub1 s0.vm.stack_idx)
        uset s0.vm.stack s0.vm.stack_idx v : Except Fault (List Int)) <;>
      rw [hsc] at h <;> dsimp only at h
    · rw [uget_ok_of_lt hb1] at hsc
      dsimp only [bind, Except.bind] at hsc
      rw [uset_ok_of_lt _ hb0] at hsc
      cases hsc
    · simp [finish] at h
  -- Pop
  · simp [finish] at h
  -- Swap
  · have hb1 : usub1 s0.vm.stack_idx < s0.vm.stack.length := by
      have := usub1_le (show 1 ≤ s0.vm.stack_idx by omega)
      omega
    have hb2 : usub2 s0.vm.stack_idx < s0.vm.stack.length := by
      have := usub2_le (show 2 ≤ s0.vm.stack_idx by omega)
      omega
    cases hsc : (do
        let tmp ← uget s0.vm.stack (usub1 s0.vm.stack_idx)
        let v2 ← uget s0.vm.stack (usub2 s0.vm.stack_idx)
        let st1 ← uset s0.vm.stack (usub1 s0.vm.stack_idx) v2
        uset st1 (usub2 s0.vm.stack_idx) tmp : Except Fault (List Int)) <;>
      rw [hsc] at h <;> dsimp only at h
    · rw [uget_ok_of_lt hb1] at hsc
      dsimp only [bind, Except.bind] at hsc
      rw [uget_ok_of_lt hb2] at hsc
      dsimp only [bind, Except.bind] at hsc
      rw [uset_ok_of_lt _ hb1] at hsc
      dsimp only [bind, Except.bind] at hsc
      rw [uset_ok_of_lt _ (by simpa using hb2)] at hsc
      cases hsc
    · simp [finish] at h
  -- Add
  · have hb1 : usub1 s0.vm.stack_idx < s0.vm.stack.length := by
      have := usub1_le (show 1 ≤ s0.vm.stack_idx by omega)
      omega
    have hb2 : usub2 s0.vm.stack_idx < s0.vm.stack.length := by
      have := usub2_le (show 2 ≤ s0.vm.stack_idx by omega)
      omega
    cases hsc : binInPlace s0.vm.stack s0.vm.stack_idx addOp <;>
      rw [hsc] at h <;> dsimp only at h
    · cases h
      exact binInPlace_error_not_ub hsc hb1 hb2 addOp_not_ub
    · simp [finish] at h
  -- Sub
  · have hb1 : usub1 s0.vm.stack_idx < s0.vm.stack.length := by
      have := usub1_le (show 1 ≤ s0.vm.stack_idx by omega)
      omega
    have hb2 : usub2 s0.vm.stack_idx < s0.vm.stack.length := by
      have := usub2_le (show 2 ≤ s0.vm.stack_idx by omega)
      omega
    cases hsc : binInPlace s0.vm.stack s0.vm.stack_idx subOp <;>
      rw [hsc] at h <;> dsimp only at h
    · cases h
      exact binInPlace_error_not_ub hsc hb1 hb2 subOp_not_ub
    · simp [finish] at h
  -- Mul
  · have hb1 : usub1 s0.vm.stack_idx < s0.vm.stack.length := by
      have := usub1_le (show 1 ≤ s0.vm.stack_idx by omega)
      omega
    have hb2 : usub2 s0.vm.stack_idx < s0.vm.stack.length := by
      have := usub2_le (show 2 ≤ s0.vm.stack_idx by omega)
      omega
    cases hsc : binInPlace s0.vm.stack s0.vm.stack_idx mulOp <;>
      rw [hsc] at h <;> dsimp only at h
    · cases h
      exact binInPlace_error_not_ub hsc hb1 hb2 mulOp_not_ub
    · simp [finish] at h
  -- Div
  · have hb1 : usub1 s0.vm.stack_idx < s0.vm.stack.length := by
      have := usub1_le (show 1 ≤ s0.vm.stack_idx by omega)
      omega
    have hb2 : usub2 s0.vm.stack_idx < s0.vm.stack.length := by
      have := usub2_le (show 2 ≤ s0.vm.stack_idx by omega)
      omega
    cases hsc : binInPlace s0.vm.stack s0.vm.stack_idx divOp <;>
      rw [hsc] at h <;> dsimp only at h
    · cases h
      exact binInPlace_error_not_ub hsc hb1 hb2 divOp_not_ub
    · simp [finish] at h
  -- Mod
  · have hb1 : usub1 s0.vm.stack_idx < s0.vm.stack.length := by
      have := usub1_le (show 1 ≤ s0.vm.stack_idx by omega)
      omega
    have hb2 : usub2 s0.vm.stack_idx < s0.vm.stack.length := by
      have := usub2_le (show 2 ≤ s0.vm.stack_idx by omega)
      omega
    cases hsc : binInPlace s0.vm.stack s0.vm.stack_idx modOp <;>
      rw [hsc] at h <;> dsimp only at h
    · cases h
      exact binInPlace_error_not_ub hsc hb1 hb2 modOp_not_ub
    · simp [finish] at h
  -- Eq
  · have hb1 : usub1 s0.vm.stack_idx < s0.vm.stack.length := by
      have := usub1_le (show 1 ≤ s0.vm.stack_idx by omega)
      omega
    have hb2 : usub2 s0.vm.stack_idx < s0.vm.stack.length := by
      have := usub2_le (show 2 ≤ s0.vm.stack_idx by omega)
      omega
    cases hsc : binInPlace s0.vm.stack s0.vm.stack_idx eqOp <;>
      rw [hsc] at h <;> dsimp only at h
    · cases h
      exact binInPlace_error_not_ub hsc hb1 hb2 eqOp_not_ub
    · simp [finish] at h
  -- Lt
  · have hb1 : usub1 s0.vm.stack_idx < s0.vm.stack.length := by
      have := usub1_le (show 1 ≤ s0.vm.stack_idx by omega)
      omega
    have hb2 : usub2 s0.vm.stack_idx < s0.vm.stack.length := by
      have := usub2_le (show 2 ≤ s0.vm.stack_idx by omega)
      omega
    cases hsc : binInPlace s0.vm.stack s0.vm.stack_idx ltOp <;>
      rw [hsc] at h <;> dsimp only at h
    · cases h
      exact binInPlace_error_not_ub hsc hb1 hb2 ltOp_not_ub
    · simp [finish] at h
  -- Lte
  · have hb1 : usub1 s0.vm.stack_idx < s0.vm.stack.length := by
      have := usub1_le (show 1 ≤ s0.vm.stack_idx by omega)
      omega
    have hb2 : usub2 s0.vm.stack_idx < s0.vm.stack.length := by
      have := usub2_le (show 2 ≤ s0.vm.stack_idx by omega)
      omega
    cases hsc : binInPlace s0.vm.stack s0.vm.stack_idx lteOp <;>
      rw [hsc] at h <;> dsimp only at h
    · cases h
      exact binInPlace_error_not_ub hsc hb1 hb2 lteOp_not_ub
    · simp [finish] at h
  -- Gt
  · have hb1 : usub1 s0.vm.stack_idx < s0.vm.stack.length := by
      have := usub1_le (show 1 ≤ s0.vm.stack_idx by omega)
      omega
    have hb2 : usub2 s0.vm.stack_idx < s0.vm.stack.length := by
      have := usub2_le (show 2 ≤ s0.vm.stack_idx by omega)
      omega
    cases hsc : binInPlace s0.vm.stack s0.vm.stack_idx gtOp <;>
      rw [hsc] at h <;> dsimp only at h
    · cases h
      exact binInPlace_error_not_ub hsc hb1 hb2 gtOp_not_ub
    · simp [finish] at h
  -- Gte
  · have hb1 : usub1 s0.vm.stack_idx < s0.vm.stack.length := by
      have := usub1_le (show 1 ≤ s0.vm.stack_idx by omega)
      omega
    have hb2 : usub2 s0.vm.stack_idx < s0.vm.stack.length := by
      have := usub2_le (show 2 ≤ s0.vm.stack_idx by omega)
      omega
    cases hsc : binInPlace s0.vm.stack s0.vm.stack_idx gteOp <;>
      rw [hsc] at h <;> dsimp only at h
    · cases h
      exact binInPlace_error_not_ub hsc hb1 hb2 gteOp_not_ub
    · simp [finish] at h
  -- Jz
  · have hb1 : usub1 s0.vm.stack_idx < s0.vm.stack.length := by
      have := usub1_le (show 1 ≤ s0.vm.stack_idx by omega)
      omega
    cases hg : uget s0.vm.stack (usub1 s0.vm.stack_idx) <;>
      rw [hg] at h <;> dsimp only at h
    · rw [uget_ok_of_lt hb1] at hg
      cases hg
    · rename_i c
      cases hj : jumpHelper program s0.pos (decide (c = 0)) <;>
        rw [hj] at h <;> dsimp only at h
      · rename_i p
        obtain ⟨e2, fp⟩ := p
        dsimp only at h
        cases h
        simp
      · simp [finish] at h
  -- Jnz
  · have hb1 : usub1 s0.vm.stack_idx < s0.vm.stack.length := by
      have := usub1_le (show 1 ≤ s0.vm.stack_idx by omega)
      omega
    cases hg : uget s0.vm.stack (usub1 s0.vm.stack_idx) <;>
      rw [hg] at h <;> dsimp only at h
    · rw [uget_ok_of_lt hb1] at hg
      cases hg
    · rename_i c
      cases hj : jumpHelper program s0.pos (decide (c ≠ 0)) <;>
        rw [hj] at h <;> dsimp only at h
      · rename_i p
        obtain ⟨e2, fp⟩ := p
        dsimp only at h
        cases h
        simp
      · simp [finish] at h
  -- Jump
  · cases hj : jumpHelper program s0.pos true <;> rw [hj] at h <;>
      dsimp only at h
    · rename_i p
      obtain ⟨e2, fp⟩ := p
      dsimp only at h
      cases h
      simp
    · simp [finish] at h
  -- Call
  · cases hga : getAt s0.vm.control_stack s0.vm.control_stack_idx <;>
      rw [hga] at h <;> dsimp only at h
    · cases h
      simp
    · cases hj : jumpHelper program s0.pos true <;> rw [hj] at h <;>
        dsimp only at h
      · rename_i p
        obtain ⟨e2, fp⟩ := p
        dsimp only at h
        cases h
        simp
      · simp [finish] at h
  -- Ret
  · cases hga : getAt s0.vm.control_stack (usub1 s0.vm.control_stack_idx) <;>
      rw [hga] at h <;> dsimp only at h
    · cases h
      simp
    · simp [finish] at h
  -- CPush
  · split at h
    · cases h
      simp
    · rename_i hguard
      have hb1 : usub1 s0.vm.stack_idx < s0.vm.stack.length := by
        have := usub1_le (show 1 ≤ s0.vm.stack_idx by omega)
        omega
      have hcb : s0.vm.control_stack_idx < s0.vm.control_stack.length := by
        omega
      cases hsc : (do
          let v ← uget s0.vm.stack (usub1 s0.vm.stack_idx)
          uset s0.vm.control_stack s0.vm.control_stack_idx v :
            Except Fault (List Int)) <;> rw [hsc] at h <;> dsimp only at h
      · rw [uget_ok_of_lt hb1] at hsc
        dsimp only [bind, Except.bind] at hsc
        rw [uset_ok_of_lt _ hcb] at hsc
        cases hsc
      · simp [finish] at h
  -- CPop
  · split at h
    · cases h
      simp
    · rename_i hguard
      have hb0 : s0.vm.stack_idx < s0.vm.stack.length := by omega
      have hcb : usub1 s0.vm.control_stack_idx <
          s0.vm.control_stack.length := by
        have := usub1_le (show 1 ≤ s0.vm.control_stack_idx by omega)
        omega
      cases hsc : (do
          let v ← uget s0.vm.control_stack (usub1 s0.vm.control_stack_idx)
          uset s0.vm.stack s0.vm.stack_idx v :
            Except Fault (List Int)) <;> rw [hsc] at h <;> dsimp only at h
      · rw [uget_ok_of_lt hcb] at hsc
        dsimp only [bind, Except.bind] at hsc
        rw [uset_ok_of_lt _ hb0] at hsc
        cases hsc
      · simp [finish] at h
  -- CDup
  · split at h
    · cases h
      simp
    · rename_i hguard
      have hb0 : s0.vm.stack_idx < s0.vm.stack.length := by omega
      have hcb : usub1 s0.vm.control_stack_idx <
          s0.vm.control_stack.length := by
        have := usub1_le (show 1 ≤ s0.vm.control_stack_idx by omega)
        omega
      cases hsc : (do
          let v ← uget s0.vm.control_stack (usub1 s0.vm.control_stack_idx)
          uset s0.vm.stack s0.vm.stack_idx v :
            Except Fault (List Int)) <;> rw [hsc] at h <;> dsimp only at h
      · rw [uget_ok_of_lt hcb] at hsc
        dsimp only [bind, Except.bind] at hsc
        rw [uset_ok_of_lt _ hb0] at hsc
        cases hsc
      · simp [finish] at h

/-- C10, counterexample: the pre-checks alone do not put the unchecked
accesses in bounds.  At the caller-constructible state `stack = [0]`,
`stack_idx = 2 ^ 63`, both uniform pre-checks pass (the `usize as isize`
cast of line 110 sees a negative value), yet `print` reaches an
out-of-bounds `get_unchecked` read — real undefined behavior — and
`push` makes its secondary `StackOverflow` branch fire. -/
theorem C10_counterexample :
    underflowCheck .Print ⟨[0], 9223372036854775808, [], 0⟩ = false ∧
    overflowCheck .Print ⟨[0], 9223372036854775808, [], 0⟩ = false ∧
    step [1] ⟨⟨[0], 9223372036854775808, [], 0⟩, 0, []⟩ =
      .fault .undefinedBehavior ⟨⟨[0], 9223372036854775808, [], 0⟩, 1, []⟩ ∧
    overflowCheck .Push ⟨[0], 9223372036854775808, [], 0⟩ = false ∧
    step [3, 0, 0, 0, 0] ⟨⟨[0], 9223372036854775808, [], 0⟩, 0, []⟩ =
      .fault (.err .StackOverflow)
        ⟨⟨[0], 9223372036854775808, [], 0⟩, 5, []⟩ := by decide

/-- C10 (amended): given the uniform pre-checks, the per-opcode
control-stack checks, and the two cursor invariants
(`stack_idx <= capacity` with the capacity within the Rust slice bound,
and `control_stack_idx <= control-stack capacity`), a dispatch step can
never fail with an out-of-bounds unchecked array access (the
`Fault.undefinedBehavior` branch of the total embedding is unreachable),
and after the uniform pre-checks pass for `push`, `stack_idx` is
strictly inside the stack, so the secondary `StackOverflow` branch
inside the push body can never fire. -/
theorem C10_memory_safety (program : List Nat) (s : ExecSt)
    (hstk : s.vm.stack_idx ≤ s.vm.stack.length)
    (hlen : s.vm.stack.length < 2 ^ 63)
    (hctl : s.vm.control_stack_idx ≤ s.vm.control_stack.length) :
    (∀ f s', step program s = .fault f s' → f ≠ .undefinedBehavior) ∧
    (∀ b pos1, read_u8 program s.pos = some (b, pos1) →
      Inst.from_u8 b = some .Push →
      underflowCheck .Push s.vm = false → overflowCheck .Push s.vm = false →
      s.vm.stack_idx < s.vm.stack.length) := by
  have hidx : s.vm.stack_idx < 2 ^ 63 := Nat.lt_of_le_of_lt hstk hlen
  constructor
  · intro f s' h
    simp only [step] at h
    cases hru : read_u8 program s.pos <;> rw [hru] at h <;> dsimp only at h
    · cases h
    · rename_i p
      obtain ⟨b, pos1⟩ := p
      dsimp only at h
      cases hdec : Inst.from_u8 b <;> rw [hdec] at h <;> dsimp only at h
      · cases h
        simp
      · rename_i inst
        by_cases hu : underflowCheck inst s.vm = true
        · rw [if_pos hu] at h
          cases h
          simp
        · rw [if_neg hu] at h
          by_cases ho : overflowCheck inst s.vm = true
          · rw [if_pos ho] at h
            cases h
            simp
          · rw [if_neg ho] at h
            refine stepBody_fault_not_ub ?_ ?_ ?_ ?_ h
            · simp_all
            · simp_all
            · exact hidx
            · exact hctl
  · intro b pos1 hrb hdec hu ho
    have hO := overflow_false ho
    rw [toI64_eq_of_lt hidx] at hO
    simp only [Inst.stack_effect] at hO
    omega

/-- C10 witness: decoding fails on opcode byte 99 with `InvalidOpcode`,
and by the theorem that fault is not the unreachable out-of-bounds one. -/
theorem C10_witness :
    step [99] ⟨⟨[], 0, [], 0⟩, 0, []⟩ =
      .fault (.err .InvalidOpcode) ⟨⟨[], 0, [], 0⟩, 1, []⟩ ∧
    Fault.err VmError.InvalidOpcode ≠ Fault.undefinedBehavior :=
  ⟨by decide,
   (C10_memory_safety [99] ⟨⟨[], 0, [], 0⟩, 0, []⟩ (by decide) (by decide)
     (by decide)).1
     (.err .InvalidOpcode) ⟨⟨[], 0, [], 0⟩, 1, []⟩ (by decide)⟩

/-! ## Claim C7 -/

theorem getAt_lt_of_some {α : Type} {l : List α} {i : Nat} {v : α}
    (h : getAt l i = some v) : i < l.length :=
  (getAt_eq_some_iff.mp h).1

theorem uset_ok_length {l : List Int} {i : Nat} {v : Int} {l' : List Int}
    (h : uset l i v = .ok l') : l'.length = l.length := by
  unfold uset at h
  split at h
  · cases h
    simp
  · cases h

theorem uset_ok_bound {l : List Int} {i : Nat} {v : Int} {l' : List Int}
    (h : uset l i v = .ok l') : i < l.length := by
  unfold uset at h
  split at h
  · assumption
  · cases h

theorem ugetUset_ok_bound {l1 l2 : List Int} {i j : Nat} {l' : List Int}
    (h : (do
        let v ← uget l1 i
        uset l2 j v : Except Fault (List Int)) = .ok l') :
    j < l2.length := by
  cases hg : uget l1 i <;> rw [hg] at h <;>
    dsimp only [bind, Except.bind] at h
  · cases h
  · exact uset_ok_bound h

theorem ugetUset_ok_length {l1 l2 : List Int} {i j : Nat} {l' : List Int}
    (h : (do
        let v ← uget l1 i
        uset l2 j v : Except Fault (List Int)) = .ok l') :
    l'.length = l2.length := by
  cases hg : uget l1 i <;> rw [hg] at h <;>
    dsimp only [bind, Except.bind] at h
  · cases h
  · exact uset_ok_length h

theorem swapBlock_ok_length {l : List Int} {i : Nat} {l' : List Int}
    (h : (do
        let tmp ← uget l (usub1 i)
        let v2 ← uget l (usub2 i)
        let st1 ← uset l (usub1 i) v2
        uset st1 (usub2 i) tmp : Except Fault (List Int)) = .ok l') :
    l'.length = l.length := by
  cases h1 : uget l (usub1 i) <;> rw [h1] at h <;>
    dsimp only [bind, Except.bind] at h
  · cases h
  · cases h2 : uget l (usub2 i) <;> rw [h2] at h <;>
      dsimp only [bind, Except.bind] at h
    · cases h
    · rename_i tmp v2
      cases h3 : uset l (usub1 i) v2 <;> rw [h3] at h <;>
        dsimp only [bind, Except.bind] at h
      · cases h
      · have e3 := uset_ok_length h3
        have e4 := uset_ok_length h
        omega

theorem binInPlace_ok_length {stack : List Int} {idx : Nat}
    {op : Int → Int → Except Fault Int} {stack' : List Int}
    (h : binInPlace stack idx op = .ok stack') :
    stack'.length = stack.length := by
  unfold binInPlace at h
  cases h1 : uget stack (usub1 idx) <;> rw [h1] at h <;>
    dsimp only [bind, Except.bind] at h
  · cases h
  · cases h2 : uget stack (usub2 idx) <;> rw [h2] at h <;>
      dsimp only [bind, Except.bind] at h
    · cases h
    · rename_i b a
      cases h3 : op a b <;> rw [h3] at h <;>
        dsimp only [bind, Except.bind] at h
      · cases h
      · exact uset_ok_length h

theorem finish_state_bounds (inst : Inst) (vm1 : Vm) (pos : Nat)
    (out : List Int)
    (h1 : toU64 ((vm1.stack_idx : Int) + inst.stack_effect) ≤
      vm1.stack.length)
    (h2 : vm1.control_stack_idx ≤ vm1.control_stack.length) :
    StacksInBounds ((finish inst ⟨vm1, pos, out⟩).state) := by
  dsimp only [finish, applyEffect, StepResult.state, StacksInBounds]
  exact ⟨h1, h2⟩

/-- Every opcode body preserves both cursor bounds, whatever its
outcome: the post-step cursor stays within the stack because either the
opcode releases slots (non-positive effect) or its own successful write
witnesses the headroom. -/
theorem stepBody_preserves {program : List Nat} {inst : Inst} {s0 : ExecSt}
    (hu : underflowCheck inst s0.vm = false)
    (ho : overflowCheck inst s0.vm = false)
    (hInv : StacksInBounds s0) :
    StacksInBounds ((stepBody program inst s0).state) := by
  have h3 := hInv.1
  -- cursor bound for every opcode that does not grow the stack
  cases inst
  -- Nop
  · exact finish_state_bounds .Nop s0.vm _ _
      (applyEffect_le hu (by simp only [Inst.stack_effect]; omega)) hInv.2
  -- Print
  · cases hg : uget s0.vm.stack (usub1 s0.vm.stack_idx) <;>
      simp only [stepBody, hg, StepResult.state]
    · exact hInv
    · exact finish_state_bounds .Print s0.vm _ _
        (applyEffect_le hu (by simp only [Inst.stack_effect]; omega)) hInv.2
  -- Halt
  · exact hInv
  -- Push
  · cases hri : read_i32 program s0.pos <;>
      simp only [stepBody, hri, StepResult.state]
    · exact hInv
    · rename_i p
      obtain ⟨v, pos2⟩ := p
      cases hga : getAt s0.vm.stack s0.vm.stack_idx <;>
        simp only [hga, StepResult.state]
      · exact hInv
      · have hb := getAt_lt_of_some hga
        refine finish_state_bounds .Push _ _ _ ?_ hInv.2
        dsimp only
        rw [List.length_set]
        exact applyEffect_le hu (by simp only [Inst.stack_effect]; omega)
  -- Dup
  · cases hsc : (do
        let v ← uget s0.vm.stack (usub1 s0.vm.stack_idx)
        uset s0.vm.stack s0.vm.stack_idx v : Except Fault (List Int)) <;>
      simp only [stepBody, hsc, StepResult.state]
    · exact hInv
    · rename_i stack'
      have hl := ugetUset_ok_length hsc
      have hb := ugetUset_ok_bound hsc
      refine finish_state_bounds .Dup _ _ _ ?_ hInv.2
      dsimp only
      rw [hl]
      exact applyEffect_le hu (by simp only [Inst.stack_effect]; omega)
  -- Pop
  · exact finish_state_bounds .Pop s0.vm _ _
      (applyEffect_le hu (by simp only [Inst.stack_effect]; omega)) hInv.2
  -- Swap
  · cases hsc : (do
        let tmp ← uget s0.vm.stack (usub1 s0.vm.stack_idx)
        let v2 ← uget s0.vm.stack (usub2 s0.vm.stack_idx)
        let st1 ← uset s0.vm.stack (usub1 s0.vm.stack_idx) v2
        uset st1 (usub2 s0.vm.stack_idx) tmp : Except Fault (List Int)) <;>
      simp only [stepBody, hsc, StepResult.state]
    · exact hInv
    · rename_i stack'
      have hl := swapBlock_ok_length hsc
      refine finish_state_bounds .Swap _ _ _ ?_ hInv.2
      dsimp only
      rw [hl]
      exact applyEffect_le hu (by simp only [Inst.stack_effect]; omega)
  -- Add
  · cases hsc : binInPlace s0.vm.stack s0.vm.stack_idx addOp <;>
      simp only [stepBody, hsc, StepResult.state]
    · exact hInv
    · have hl := binInPlace_ok_length hsc
      refine finish_state_bounds .Add _ _ _ ?_ hInv.2
      dsimp only
      rw [hl]
      have h3 := hInv.1
      exact applyEffect_le hu (by simp only [Inst.stack_effect]; omega)
  -- Sub
  · cases hsc : binInPlace s0.vm.stack s0.vm.stack_idx subOp <;>
      simp only [stepBody, hsc, StepResult.state]
    · exact hInv
    · have hl := binInPlace_ok_length hsc
      refine finish_state_bounds .Sub _ _ _ ?_ hInv.2
      dsimp only
      rw [hl]
      have h3 := hInv.1
      exact applyEffect_le hu (by simp only [Inst.stack_effect]; omega)
  -- Mul
  · cases hsc : binInPlace s0.vm.stack s0.vm.stack_idx mulOp <;>
      simp only [stepBody, hsc, StepResult.state]
    · exact hInv
    · have hl := binInPlace_ok_length hsc
      refine finish_state_bounds .Mul _ _ _ ?_ hInv.2
      dsimp only
      rw [hl]
      have h3 := hInv.1
      exact applyEffect_le hu (by simp only [Inst.stack_effect]; omega)
  -- Div
  · cases hsc : binInPlace s0.vm.stack s0.vm.stack_idx divOp <;>
      simp only [stepBody, hsc, StepResult.state]
    · exact hInv
    · have hl := binInPlace_ok_length hsc
      refine finish_state_bounds .Div _ _ _ ?_ hInv.2
      dsimp only
      rw [hl]
      have h3 := hInv.1
      exact applyEffect_le hu (by simp only [Inst.stack_effect]; omega)
  -- Mod
  · cases hsc : binInPlace s0.vm.stack s0.vm.stack_idx modOp <;>
      simp only [stepBody, hsc, StepResult.state]
    · exact hInv
    · have hl := binInPlace_ok_length hsc
      refine finish_state_bounds .Mod _ _ _ ?_ hInv.2
      dsimp only
      rw [hl]
      have h3 := hInv.1
      exact applyEffect_le hu (by simp only [Inst.stack_effect]; omega)
  -- Eq
  · cases hsc : binInPlace s0.vm.stack s0.vm.stack_idx eqOp <;>
      simp only [stepBody, hsc, StepResult.state]
    · exact hInv
    · have hl := binInPlace_ok_length hsc
      refine finish_state_bounds .Eq _ _ _ ?_ hInv.2
      dsimp only
      rw [hl]
      have h3 := hInv.1
      exact applyEffect_le hu (by simp only [Inst.stack_effect]; omega)
  -- Lt
  · cases hsc : binInPlace s0.vm.stack s0.vm.stack_idx ltOp <;>
      simp only [stepBody, hsc, StepResult.state]
    · exact hInv
    · have hl := binInPlace_ok_length hsc
      refine finish_state_bounds .Lt _ _ _ ?_ hInv.2
      dsimp only
      rw [hl]
      have h3 := hInv.1
      exact applyEffect_le hu (by simp only [Inst.stack_effect]; omega)
  -- Lte
  · cases hsc : binInPlace s0.vm.stack s0.vm.stack_idx lteOp <;>
      simp only [stepBody, hsc, StepResult.state]
    · exact hInv
    · have hl := binInPlace_ok_length hsc
      refine finish_state_bounds .Lte _ _ _ ?_ hInv.2
      dsimp only
      rw [hl]
      have h3 := hInv.1
      exact applyEffect_le hu (by simp only [Inst.stack_effect]; omega)
  -- Gt
  · cases hsc : binInPlace s0.vm.stack s0.vm.stack_idx gtOp <;>
      simp only [stepBody, hsc, StepResult.state]
    · exact hInv
    · have hl := binInPlace_ok_length hsc
      refine finish_state_bounds .Gt _ _ _ ?_ hInv.2
      dsimp only
      rw [hl]
      have h3 := hInv.1
      exact applyEffect_le hu (by simp only [Inst.stack_effect]; omega)
  -- Gte
  · cases hsc : binInPlace s0.vm.stack s0.vm.stack_idx gteOp <;>
      simp only [stepBody, hsc, StepResult.state]
    · exact hInv
    · have hl := binInPlace_ok_length hsc
      refine finish_state_bounds .Gte _ _ _ ?_ hInv.2
      dsimp only
      rw [hl]
      have h3 := hInv.1
      exact applyEffect_le hu (by simp only [Inst.stack_effect]; omega)
  -- Jz
  · cases hg : uget s0.vm.stack (usub1 s0.vm.stack_idx) <;>
      simp only [stepBody, hg, StepResult.state]
    · exact hInv
    · rename_i c
      cases hj : jumpHelper program s0.pos (decide (c = 0)) <;>
        simp only [hj, StepResult.state]
      · rename_i p
        obtain ⟨e2, fp⟩ := p
        exact hInv
      · exact finish_state_bounds .Jz s0.vm _ _
          (applyEffect_le hu (by simp only [Inst.stack_effect]; omega)) hInv.2
  -- Jnz
  · cases hg : uget s0.vm.stack (usub1 s0.vm.stack_idx) <;>
      simp only [stepBody, hg, StepResult.state]
    · exact hInv
    · rename_i c
      cases hj : jumpHelper program s0.pos (decide (c ≠ 0)) <;>
        simp only [hj, StepResult.state]
      · rename_i p
        obtain ⟨e2, fp⟩ := p
        exact hInv
      · exact finish_state_bounds .Jnz s0.vm _ _
          (applyEffect_le hu (by simp only [Inst.stack_effect]; omega)) hInv.2
  -- Jump
  · cases hj : jumpHelper program s0.pos true <;>
      simp only [stepBody, hj, StepResult.state]
    · rename_i p
      obtain ⟨e2, fp⟩ := p
      exact hInv
    · exact finish_state_bounds .Jump s0.vm _ _
        (applyEffect_le hu (by simp only [Inst.stack_effect]; omega)) hInv.2
  -- Call
  · cases hga : getAt s0.vm.control_stack s0.vm.control_stack_idx <;>
      simp only [stepBody, hga, StepResult.state]
    · exact hInv
    · have hcb := getAt_lt_of_some hga
      cases hj : jumpHelper program s0.pos true <;>
        simp only [hj, StepResult.state]
      · rename_i p
        obtain ⟨e2, fp⟩ := p
        refine ⟨hInv.1, ?_⟩
        simpa using Nat.le_of_lt hcb
      · refine finish_state_bounds .Call _ _ _ ?_ ?_
        · exact applyEffect_le hu (by simp only [Inst.stack_effect]; omega)
        · dsimp only
          simp only [List.length_set]
          omega
  -- Ret
  · cases hga : getAt s0.vm.control_stack (usub1 s0.vm.control_stack_idx) <;>
      simp only [stepBody, hga, StepResult.state]
    · exact hInv
    · refine finish_state_bounds .Ret _ _ _ ?_ ?_
      · exact applyEffect_le hu (by simp only [Inst.stack_effect]; omega)
      · dsimp only
        have h4 := hInv.2
        omega
  -- CPush
  · simp only [stepBody]
    split
    · exact hInv
    · rename_i hguard
      cases hsc : (do
          let v ← uget s0.vm.stack (usub1 s0.vm.stack_idx)
          uset s0.vm.control_stack s0.vm.control_stack_idx v :
            Except Fault (List Int)) <;> simp only [hsc, StepResult.state]
      · exact hInv
      · rename_i cs'
        have hl := ugetUset_ok_length hsc
        refine finish_state_bounds .CPush _ _ _ ?_ ?_
        · exact applyEffect_le hu (by simp only [Inst.stack_effect]; omega)
        · dsimp only
          omega
  -- CPop
  · simp only [stepBody]
    split
    · exact hInv
    · rename_i hguard
      cases hsc : (do
          let v ← uget s0.vm.control_stack (usub1 s0.vm.control_stack_idx)
          uset s0.vm.stack s0.vm.stack_idx v :
            Except Fault (List Int)) <;> simp only [hsc, StepResult.state]
      · exact hInv
      · rename_i stack'
        have hl := ugetUset_ok_length hsc
        have hb := ugetUset_ok_bound hsc
        refine finish_state_bounds .CPop _ _ _ ?_ ?_
        · dsimp only
          rw [hl]
          exact applyEffect_le hu (by simp only [Inst.stack_effect]; omega)
        · dsimp only
          have h4 := hInv.2
          omega
  -- CDup
  · simp only [stepBody]
    split
    · exact hInv
    · rename_i hguard
      cases hsc : (do
          let v ← uget s0.vm.control_stack (usub1 s0.vm.control_stack_idx)
          uset s0.vm.stack s0.vm.stack_idx v :
            Except Fault (List Int)) <;> simp only [hsc, StepResult.state]
      · exact hInv
      · rename_i stack'
        have hl := ugetUset_ok_length hsc
        have hb := ugetUset_ok_bound hsc
        refine finish_state_bounds .CDup _ _ _ ?_ hInv.2
        dsimp only
        rw [hl]
        exact applyEffect_le hu (by simp only [Inst.stack_effect]; omega)

/-- One dispatch-loop iteration preserves both cursor bounds. -/
theorem step_state_bounds (program : List Nat) (s : ExecSt)
    (hInv : StacksInBounds s) : StacksInBounds ((step program s).state) := by
  cases hru : read_u8 program s.pos
  · simp only [step, hru, StepResult.state]
    exact hInv
  · rename_i p
    obtain ⟨b, pos1⟩ := p
    cases hdec : Inst.from_u8 b
    · simp only [step, hru, hdec, StepResult.state]
      exact hInv
    · rename_i inst
      by_cases hu : underflowCheck inst s.vm = true
      · simp only [step, hru, hdec, hu, if_true, StepResult.state]
        exact hInv
      · have hu2 : underflowCheck inst s.vm = false := by simp_all
        by_cases ho : overflowCheck inst s.vm = true
        · simp only [step, hru, hdec, hu2, Bool.false_eq_true, if_false,
            ho, if_true, StepResult.state]
          exact hInv
        · have ho2 : overflowCheck inst s.vm = false := by simp_all
          simp only [step, hru, hdec, hu2, ho2, Bool.false_eq_true, if_false]
          refine stepBody_preserves ?_ ?_ ?_ <;> exact_mod_cast ‹_›

/-- The whole fuel-indexed dispatch loop preserves both cursor bounds. -/
theorem execute_state_bounds (program : List Nat) :
    ∀ fuel (s : ExecSt), StacksInBounds s →
      StacksInBounds ((execute program fuel s).state)
  | 0, _, h => h
  | fuel + 1, s, h => by
    have hstep := step_state_bounds program s h
    simp only [execute]
    cases hs : step program s <;> rw [hs] at hstep <;>
      dsimp only [StepResult.state] at hstep <;> dsimp only [RunResult.state]
    · exact execute_state_bounds program fuel _ hstep
    · exact hstep
    · exact hstep
    · exact hstep

/-- C7: from any starting state satisfying `0 <= stack_idx <= capacity`
and `0 <= control_stack_idx <= capacity`, both bounds hold at every
observable point of `execute`: after the next dispatch step (whatever its
outcome, error results included) and at the final state of the loop for
any fuel, again including error returns. -/
theorem C7_bounds_invariant (program : List Nat) (s : ExecSt)
    (hInv : StacksInBounds s) :
    StacksInBounds ((step program s).state) ∧
    ∀ fuel, StacksInBounds ((execute program fuel s).state) :=
  ⟨step_state_bounds program s hInv,
   fun fuel => execute_state_bounds program fuel s hInv⟩

/-- C7 witness: a concrete run of the factorial-style kernel state. -/
theorem C7_witness :
    StacksInBounds ((step [3, 9, 0, 0, 0, 2] ⟨⟨[0, 0], 0, [0], 0⟩, 0, []⟩).state) ∧
    StacksInBounds
      ((execute [3, 9, 0, 0, 0, 2] 3 ⟨⟨[0, 0], 0, [0], 0⟩, 0, []⟩).state) :=
  ⟨(C7_bounds_invariant [3, 9, 0, 0, 0, 2] ⟨⟨[0, 0], 0, [0], 0⟩, 0, []⟩
      (by constructor <;> decide)).1,
   (C7_bounds_invariant [3, 9, 0, 0, 0, 2] ⟨⟨[0, 0], 0, [0], 0⟩, 0, []⟩
      (by constructor <;> decide)).2 3⟩

/-! ## Claim C6 -/

/-- When the decoded opcode passes both uniform pre-checks, the step is
its body run from the cursor after the opcode byte. -/
theorem step_next_of (program : List Nat) (s : ExecSt) (b pos1 : Nat)
    (inst : Inst)
    (hr : read_u8 program s.pos = some (b, pos1))
    (hd : Inst.from_u8 b = some inst)
    (hu : underflowCheck inst s.vm = false)
    (ho : overflowCheck inst s.vm = false) :
    step program s = stepBody program inst { s with pos := pos1 } := by
  simp [step, hr, hd, hu, ho]

/-- C6: assembling the six-line source `push 1 / push 2 / add / dup /
print / halt` and executing it with an operand stack of capacity at least
4 (arbitrary initial contents, arbitrary control stack) from initial
stack index 0 succeeds, emits exactly the single value 3, and ends with
final stack index 1. -/
theorem C6_end_to_end (stack cs : List Int) (ci : Nat)
    (h : 4 ≤ stack.length) :
    ∃ p s2,
      assemble ("push 1\npush 2\nadd\ndup\nprint\nhalt".data) = .ok p ∧
      execute p 6 ⟨⟨stack, 0, cs, ci⟩, 0, []⟩ = .ok s2 ∧
      s2.out = [3] ∧ s2.vm.stack_idx = 1 := by
  rcases stack with _ | ⟨a, _ | ⟨b, _ | ⟨c, _ | ⟨d, r⟩⟩⟩⟩
  · simp at h
  · simp at h
  · simp at h
  · simp at h
  refine ⟨[3, 1, 0, 0, 0, 3, 2, 0, 0, 0, 7, 4, 1, 2],
    ⟨⟨3 :: 3 :: c :: d :: r, 1, cs, ci⟩, 14, [3]⟩, rfl, ?_, rfl, rfl⟩
  have e1 : step [3, 1, 0, 0, 0, 3, 2, 0, 0, 0, 7, 4, 1, 2]
      ⟨⟨a :: b :: c :: d :: r, 0, cs, ci⟩, 0, []⟩ =
      .next ⟨⟨1 :: b :: c :: d :: r, 1, cs, ci⟩, 5, []⟩ := by
    rw [step_next_of [3, 1, 0, 0, 0, 3, 2, 0, 0, 0, 7, 4, 1, 2]
      ⟨⟨a :: b :: c :: d :: r, 0, cs, ci⟩, 0, []⟩ 3 1 .Push rfl rfl rfl
      (overflowCheck_false_of (show (0 : Nat) < 2 ^ 63 by decide)
      (by simp [Inst.stack_effect]; omega))]
    rfl
  have e2 : step [3, 1, 0, 0, 0, 3, 2, 0, 0, 0, 7, 4, 1, 2]
      ⟨⟨1 :: b :: c :: d :: r, 1, cs, ci⟩, 5, []⟩ =
      .next ⟨⟨1 :: 2 :: c :: d :: r, 2, cs, ci⟩, 10, []⟩ := by
    rw [step_next_of [3, 1, 0, 0, 0, 3, 2, 0, 0, 0, 7, 4, 1, 2]
      ⟨⟨1 :: b :: c :: d :: r, 1, cs, ci⟩, 5, []⟩ 3 6 .Push rfl rfl rfl
      (overflowCheck_false_of (show (1 : Nat) < 2 ^ 63 by decide)
      (by simp [Inst.stack_effect]; omega))]
    rfl
  have e3 : step [3, 1, 0, 0, 0, 3, 2, 0, 0, 0, 7, 4, 1, 2]
      ⟨⟨1 :: 2 :: c :: d :: r, 2, cs, ci⟩, 10, []⟩ =
      .next ⟨⟨3 :: 2 :: c :: d :: r, 1, cs, ci⟩, 11, []⟩ := by
    rw [step_next_of [3, 1, 0, 0, 0, 3, 2, 0, 0, 0, 7, 4, 1, 2]
      ⟨⟨1 :: 2 :: c :: d :: r, 2, cs, ci⟩, 10, []⟩ 7 11 .Add rfl rfl rfl
      (overflowCheck_false_of (show (2 : Nat) < 2 ^ 63 by decide)
      (by simp [Inst.stack_effect]; omega))]
    rfl
  have e4 : step [3, 1, 0, 0, 0, 3, 2, 0, 0, 0, 7, 4, 1, 2]
      ⟨⟨3 :: 2 :: c :: d :: r, 1, cs, ci⟩, 11, []⟩ =
      .next ⟨⟨3 :: 3 :: c :: d :: r, 2, cs, ci⟩, 12, []⟩ := by
    rw [step_next_of [3, 1, 0, 0, 0, 3, 2, 0, 0, 0, 7, 4, 1, 2]
      ⟨⟨3 :: 2 :: c :: d :: r, 1, cs, ci⟩, 11, []⟩ 4 12 .Dup rfl rfl rfl
      (overflowCheck_false_of (show (1 : Nat) < 2 ^ 63 by decide)
      (by simp [Inst.stack_effect]; omega))]
    rfl
  have e5 : step [3, 1, 0, 0, 0, 3, 2, 0, 0, 0, 7, 4, 1, 2]
      ⟨⟨3 :: 3 :: c :: d :: r, 2, cs, ci⟩, 12, []⟩ =
      .next ⟨⟨3 :: 3 :: c :: d :: r, 1, cs, ci⟩, 13, [3]⟩ := by
    rw [step_next_of [3, 1, 0, 0, 0, 3, 2, 0, 0, 0, 7, 4, 1, 2]
      ⟨⟨3 :: 3 :: c :: d :: r, 2, cs, ci⟩, 12, []⟩ 1 13 .Print rfl rfl rfl
      (overflowCheck_false_of (show (2 : Nat) < 2 ^ 63 by decide)
      (by simp [Inst.stack_effect]; omega))]
    rfl
  have e6 : step [3, 1, 0, 0, 0, 3, 2, 0, 0, 0, 7, 4, 1, 2]
      ⟨⟨3 :: 3 :: c :: d :: r, 1, cs, ci⟩, 13, [3]⟩ =
      .halted ⟨⟨3 :: 3 :: c :: d :: r, 1, cs, ci⟩, 14, [3]⟩ := by
    rw [step_next_of [3, 1, 0, 0, 0, 3, 2, 0, 0, 0, 7, 4, 1, 2]
      ⟨⟨3 :: 3 :: c :: d :: r, 1, cs, ci⟩, 13, [3]⟩ 2 14 .Halt rfl rfl rfl
      (overflowCheck_false_of (show (1 : Nat) < 2 ^ 63 by decide)
      (by simp [Inst.stack_effect]; omega))]
    rfl
  simp only [execute, e1, e2, e3, e4, e5, e6]

/-- C6 witness: the scenario run on a zero-initialised stack of
capacity exactly 4. -/
theorem C6_witness :
    ∃ p s2,
      assemble ("push 1\npush 2\nadd\ndup\nprint\nhalt".data) = .ok p ∧
      execute p 6 ⟨⟨[0, 0, 0, 0], 0, [], 0⟩, 0, []⟩ = .ok s2 ∧
      s2.out = [3] ∧ s2.vm.stack_idx = 1 :=
  C6_end_to_end [0, 0, 0, 0] [] 0 (by decide)

/-! ## Claim C5 -/

theorem getAt_eq_get? {α : Type} (l : List α) (i : Nat) :
    getAt l i = l.get? i := by
  unfold getAt
  split
  · rw [List.get?_eq_get]
  · rw [List.get?_eq_none.mpr (by omega)]

theorem encodeI32_length (n : Int) : (encodeI32 n).length = 4 := rfl

theorem wrap32_eq {x : Int} (h1 : -(2 ^ 31) ≤ x) (h2 : x < 2 ^ 31) :
    wrap32 x = x := by
  unfold wrap32
  omega

theorem toI32_eq {n : Nat} (h : n < 2 ^ 31) : toI32 n = (n : Int) := by
  unfold toI32 wrap32
  omega

theorem writeBytesAt_length : ∀ (bs prog : List Nat) (i : Nat),
    (writeBytesAt prog i bs).length = prog.length
  | [], _, _ => rfl
  | b :: bs, prog, i => by
    rw [writeBytesAt, writeBytesAt_length bs]
    simp

theorem writeBytesAt_get?_lt : ∀ (bs prog : List Nat) (i j : Nat),
    j < i → (writeBytesAt prog i bs).get? j = prog.get? j
  | [], _, _, _, _ => rfl
  | b :: bs, prog, i, j, h => by
    rw [writeBytesAt, writeBytesAt_get?_lt bs _ _ _ (by omega)]
    rw [List.get?_set_ne _ _ (by omega)]

theorem writeBytesAt_get?_in : ∀ (bs prog : List Nat) (i k : Nat),
    k < bs.length → i + bs.length ≤ prog.length →
    (writeBytesAt prog i bs).get? (i + k) = bs.get? k
  | [], _, _, _, hk, _ => by simp at hk
  | b :: bs, prog, i, 0, hk, hb => by
    rw [writeBytesAt, writeBytesAt_get?_lt bs _ _ _ (by omega)]
    simp only [Nat.add_zero]
    rw [List.get?_set_eq_of_lt _ (by simp at hb ⊢; omega)]
    rfl
  | b :: bs, prog, i, k + 1, hk, hb => by
    rw [writeBytesAt]
    have := writeBytesAt_get?_in bs (prog.set i b) (i + 1) k
      (by simp at hk; omega) (by simp at hb ⊢; omega)
    rw [show i + (k + 1) = i + 1 + k by omega]
    rw [this]
    rfl

theorem parseOperands_inv {opcode : List Char} :
    ∀ (k : Nat) (toks : List (List Char)) (st st' : AsmSt),
    parseOperands opcode k toks st = .ok st' →
    UsesChain st.label_uses → UsesBound st.label_uses st.program.length →
    UsesChain st'.label_uses ∧ UsesBound st'.label_uses st'.program.length ∧
    st.program.length ≤ st'.program.length := by
  intro k
  induction k with
  | zero =>
    intro toks st st' h hc hb
    cases h
    exact ⟨hc, hb, Nat.le_refl _⟩
  | succ k ih =>
    intro toks st st' h hc hb
    cases toks with
    | nil => simp [parseOperands] at h
    | cons operand rest =>
      rw [parseOperands] at h
      split at h
      · have h1 : UsesChain
            (st.label_uses ++ [(operand.tail, st.program.length)]) := by
          unfold UsesChain at hc ⊢
          rw [List.pairwise_append]
          refine ⟨hc, by simp, ?_⟩
          intro q hq q' hq'
          simp at hq'
          subst hq'
          exact hb q hq
        have h2 : UsesBound
            (st.label_uses ++ [(operand.tail, st.program.length)])
            (st.program ++ [0, 0, 0, 0]).length := by
          intro q hq
          simp only [List.length_append, List.length_cons,
            List.length_nil]
          rcases List.mem_append.mp hq with hq | hq
          · have := hb q hq
            omega
          · simp at hq
            subst hq
            simp
        obtain ⟨c2, b2, mono⟩ := ih rest _ st' h h1 h2
        refine ⟨c2, b2, ?_⟩
        calc st.program.length ≤ (st.program ++ [0, 0, 0, 0]).length := by
              simp
          _ ≤ st'.program.length := mono
      · rename_i hnotat
        cases hp : parse_i32 operand <;> rw [hp] at h
        · simp at h
        · rename_i n
          have h2 : UsesBound st.label_uses
              (st.program ++ encodeI32 n).length := by
            intro q hq
            have := hb q hq
            simp only [List.length_append]
            omega
          obtain ⟨c2, b2, mono⟩ := ih rest _ st' h hc h2
          refine ⟨c2, b2, ?_⟩
          calc st.program.length ≤ (st.program ++ encodeI32 n).length := by
                simp
            _ ≤ st'.program.length := mono

theorem processInst_inv {st st' : AsmSt} {opcode : List Char}
    {toks : List (List Char)}
    (h : processInst st opcode toks = .ok st')
    (hc : UsesChain st.label_uses)
    (hb : UsesBound st.label_uses st.program.length) :
    UsesChain st'.label_uses ∧ UsesBound st'.label_uses st'.program.length ∧
    st.program.length ≤ st'.program.length := by
  unfold processInst at h
  cases hi : Inst.from_str opcode <;> rw [hi] at h
  · simp at h
  · rename_i inst
    have h2 : UsesBound st.label_uses
        (st.program ++ [inst.code]).length := by
      intro q hq
      have := hb q hq
      simp only [List.length_append]
      omega
    obtain ⟨c2, b2, mono⟩ := parseOperands_inv inst.num_operands toks _ st' h hc h2
    refine ⟨c2, b2, ?_⟩
    calc st.program.length ≤ (st.program ++ [inst.code]).length := by simp
      _ ≤ st'.program.length := mono

theorem processStatement_inv {st st' : AsmSt} {line : List Char}
    (h : processStatement st line = .ok st')
    (hc : UsesChain st.label_uses)
    (hb : UsesBound st.label_uses st.program.length) :
    UsesChain st'.label_uses ∧ UsesBound st'.label_uses st'.program.length ∧
    st.program.length ≤ st'.program.length := by
  unfold processStatement at h
  cases htk : tokenize line <;> rw [htk] at h <;> dsimp only at h
  · cases h
    exact ⟨hc, hb, Nat.le_refl _⟩
  · rename_i first rest
    split at h
    · cases hlk : lookupDef st.label_definitions first.dropLast <;>
        rw [hlk] at h <;> dsimp only at h
      · cases rest with
        | nil =>
          dsimp only at h
          cases h
          exact ⟨hc, hb, Nat.le_refl _⟩
        | cons op rest2 =>
          dsimp only at h
          obtain ⟨c2, b2, mono⟩ := processInst_inv h hc hb
          exact ⟨c2, b2, mono⟩
      · simp at h
    · exact processInst_inv h hc hb

theorem foldl_statements_inv :
    ∀ (lines : List (List Char)) (st st' : AsmSt),
    List.foldlM processStatement st lines = .ok st' →
    UsesChain st.label_uses → UsesBound st.label_uses st.program.length →
    UsesChain st'.label_uses ∧ UsesBound st'.label_uses st'.program.length
  | [], st, st', h, hc, hb => by
    cases h
    exact ⟨hc, hb⟩
  | line :: lines, st, st', h, hc, hb => by
    rw [List.foldlM_cons] at h
    cases hps : processStatement st line <;> rw [hps] at h <;>
      dsimp only [bind, Except.bind] at h
    · cases h
    · rename_i st1
      obtain ⟨c1, b1, _⟩ := processStatement_inv hps hc hb
      exact foldl_statements_inv lines st1 st' h c1 b1

theorem pass1_inv {source : List Char} {st : AsmSt}
    (h : assemblePass1 source = .ok st) :
    UsesChain st.label_uses ∧ UsesBound st.label_uses st.program.length := by
  unfold assemblePass1 at h
  exact foldl_statements_inv _ _ _ h (by simp [UsesChain]) (by intro q hq; simp at hq)

theorem resolveUses_get?_below {defs : List (List Char × Nat)} :
    ∀ (uses : List (List Char × Nat)) (prog p : List Nat) (j B : Nat),
    resolveUses defs uses prog = .ok p → (∀ q ∈ uses, B ≤ q.2) → j < B →
    p.get? j = prog.get? j
  | [], prog, p, j, B, h, _, _ => by
    cases h
    rfl
  | (n0, u0) :: rest, prog, p, j, B, h, hB, hj => by
    rw [resolveUses] at h
    cases hlk : lookupDef defs n0 <;> rw [hlk] at h <;> dsimp only at h
    · cases h
    · split at h
      · have hrec := resolveUses_get?_below rest _ p j B h
          (fun q hq => hB q (by simp [hq])) hj
        rw [hrec]
        exact writeBytesAt_get?_lt _ _ _ _
          (by have := hB (n0, u0) (by simp); omega)
      · cases h

theorem resolveUses_patch {defs : List (List Char × Nat)} :
    ∀ (uses : List (List Char × Nat)) (prog p : List Nat),
    resolveUses defs uses prog = .ok p →
    UsesChain uses → UsesBound uses prog.length →
    ∀ (name : List Char) (u t : Nat), (name, u) ∈ uses →
    lookupDef defs name = some t →
    ∀ k, k < 4 →
    p.get? (u + k) = (encodeI32 (wrap32 (toI32 t - toI32 u))).get? k
  | [], _, _, _, _, _, name, u, t, hmem, _, _, _ => by simp at hmem
  | (n0, u0) :: rest, prog, p, h, hch, hbd, name, u, t, hmem, hdef, k, hk => by
    unfold UsesChain at hch
    have hchain := List.pairwise_cons.mp hch
    rw [resolveUses] at h
    cases hlk : lookupDef defs n0 <;> rw [hlk] at h <;> dsimp only at h
    · cases h
    · rename_i t0
      split at h
      · rename_i hg
        rcases List.mem_cons.mp hmem with heq | hmem2
        · injection heq with hn hu
          subst hn
          subst hu
          have ht : t0 = t := by
            rw [hlk] at hdef
            exact Option.some_inj.mp hdef
          subst ht
          have hbelow := resolveUses_get?_below rest _ p (u + k) (u + 4) h
            (fun q hq => hchain.1 q hq) (by omega)
          rw [hbelow]
          exact writeBytesAt_get?_in _ _ _ k
            (by rw [encodeI32_length]; omega)
            (by rw [encodeI32_length]; omega)
        · have hbd2 : UsesBound rest
              (writeBytesAt prog u0
                (encodeI32 (wrap32 (toI32 t0 - toI32 u0)))).length := by
            intro q hq
            rw [writeBytesAt_length]
            exact hbd q (List.mem_cons_of_mem _ hq)
          exact resolveUses_patch rest _ p h hchain.2 hbd2 name u t hmem2
            hdef k hk
      · cases h

theorem read_i32_of_encoded {p : List Nat} {u : Nat} {x : Int}
    (hx1 : -(2 ^ 31) ≤ x) (hx2 : x < 2 ^ 31)
    (hb : ∀ k, k < 4 → p.get? (u + k) = (encodeI32 x).get? k) :
    read_i32 p u = some (x, u + 4) := by
  have h0 := hb 0 (by omega)
  have h1 := hb 1 (by omega)
  have h2 := hb 2 (by omega)
  have h3 := hb 3 (by omega)
  simp only [encodeI32, Nat.add_zero] at h0 h1 h2 h3
  unfold read_i32
  simp only [getAt_eq_get?, h0, h1, h2, h3, List.get?_cons_zero,
    List.get?_cons_succ]
  rw [Option.some_inj]
  refine Prod.ext ?_ rfl
  unfold decodeLE
  dsimp only
  split <;> omega

/-- C5: for every source program whose first pass records a use of label
`end` at byte offset `u` (e.g. a forward reference `jump @end`) and
defines `end` at offset `t` (with both offsets in i32 range), a
successful assembly writes into the 4 reserved bytes exactly the
little-endian signed displacement `t - u` (`end_offset - use_offset`,
`u` being the offset of the reserved operand bytes), and executing the
assembled jump from that operand lands the cursor exactly at `t`. -/
theorem C5_label_resolution (source : List Char) (st : AsmSt) (p : List Nat)
    (u t : Nat)
    (hp1 : assemblePass1 source = .ok st)
    (hasm : assemble source = .ok p)
    (hmem : ("end".data, u) ∈ st.label_uses)
    (hdef : lookupDef st.label_definitions "end".data = some t)
    (hu31 : u < 2 ^ 31) (ht31 : t < 2 ^ 31) :
    (∀ k, k < 4 →
      p.get? (u + k) = (encodeI32 ((t : Int) - (u : Int))).get? k) ∧
    read_i32 p u = some ((t : Int) - (u : Int), u + 4) ∧
    jumpHelper p u true = .ok t := by
  have hres : resolveUses st.label_definitions st.label_uses st.program =
      .ok p := by
    unfold assemble at hasm
    rw [hp1] at hasm
    exact hasm
  obtain ⟨hch, hbd⟩ := pass1_inv hp1
  have hpatch := resolveUses_patch st.label_uses st.program p hres hch hbd
    "end".data u t hmem hdef
  have hdelta : wrap32 (toI32 t - toI32 u) = (t : Int) - u := by
    rw [toI32_eq ht31, toI32_eq hu31]
    exact wrap32_eq (by omega) (by omega)
  rw [hdelta] at hpatch
  have hread : read_i32 p u = some ((t : Int) - (u : Int), u + 4) :=
    read_i32_of_encoded (by omega) (by omega) hpatch
  refine ⟨hpatch, hread, ?_⟩
  unfold jumpHelper
  rw [hread]
  dsimp only
  rw [if_pos rfl, Except.ok.injEq]
  unfold toU64
  push_cast
  omega

/-- C5 witness: `jump @end / nop / end: halt` assembles to
`[19, 5, 0, 0, 0, 0, 2]` with displacement `5 = 6 - 1`, and the jump
lands at offset 6. -/
theorem C5_witness :
    read_i32 [19, 5, 0, 0, 0, 0, 2] 1 =
      some (((6 : Nat) : Int) - ((1 : Nat) : Int), 1 + 4) ∧
    jumpHelper [19, 5, 0, 0, 0, 0, 2] 1 true = .ok 6 :=
  (C5_label_resolution "jump @end\nnop\nend: halt".data
    ⟨[19, 0, 0, 0, 0, 0, 2], [("end".data, 6)], [("end".data, 1)]⟩
    [19, 5, 0, 0, 0, 0, 2] 1 6 rfl rfl (by simp) rfl (by decide)
    (by decide)).2

end NihVm
